import Mathlib

/-
Formal model of the amortization-schedule generator
`generate_repayment_schedule` (src/gjjdkhk.py).

The Python function is a pure computation over in-memory inputs: loan
parameters, a date-keyed rate-change map, a list of prepayments and a
repayment-method tag.  It is embedded shallowly:

* Python `datetime` values (always at midnight in this program) become the
  `Date` structure; `Date.toOrd` is Python's proleptic-Gregorian ordinal
  (`datetime.toordinal`), so `timedelta.days` between two datetimes is the
  difference of ordinals, and comparison of datetimes agrees with comparison
  of ordinals on the valid dates `datetime` can hold.
* Python floats are idealized as exact rationals `ℚ`; `round(x, n)` /
  pandas `.round(n)` is round-half-to-even at `n` decimal digits
  (`roundTo`), `x ** n` is `qpow`, `abs` is `qabs`, `max`/`min` are
  explicit conditionals.
* the mutable loop state becomes explicit state records threaded through
  `processOne` (one element of the prepayment `for` loop), `stepMonth`
  (one iteration of the `while` loop) and `simulate` (the whole loop,
  fuel-indexed; the loop body runs at most `total_months` times since every
  arm either advances `month` or makes the guard false).
* `raise ValueError` becomes `Except.error`; the dict rows become `Row`
  with `Option` fields for the keys (`月供总额`, `累计已还本金`,
  `累计已还利息`) that are present only after certain assignments.
* the final pandas stage (columns recomputed from cumulative sums and
  rounded for display) becomes `buildOut`.
-/

attribute [local semireducible] Rat.add Rat.sub Rat.mul Rat.inv

set_option maxRecDepth 8000

namespace Loan

/-- Integer power on `ℚ`, mirroring Python `**` with a natural exponent. -/
def qpow (x : ℚ) : ℕ → ℚ
  | 0 => 1
  | n + 1 => qpow x n * x

/-- Python `abs` on rationals. -/
def qabs (x : ℚ) : ℚ := if x < 0 then -x else x

/-- Floor of a rational (denominator is positive, so Euclidean division of
the numerator by the denominator is the floor). -/
def qfloor (x : ℚ) : ℤ := x.num / (x.den : ℤ)

/-- Round a rational to the nearest integer, halves to even — the rounding
used by Python `round` and pandas `.round`. -/
def rnd (x : ℚ) : ℤ :=
  let f := qfloor x
  let r := x - (f : ℚ)
  if r < 1/2 then f else if 1/2 < r then f + 1 else if f % 2 = 0 then f else f + 1

/-- Python `round(x, n)` / pandas `.round(n)` on an exact rational. -/
def roundTo (n : ℕ) (x : ℚ) : ℚ := ((rnd (x * 10 ^ n) : ℤ) : ℚ) / 10 ^ n

/-- Two-decimal display rounding. -/
def round2 (x : ℚ) : ℚ := roundTo 2 x

/-- Six-decimal rounding used for the cumulative columns. -/
def round6 (x : ℚ) : ℚ := roundTo 6 x

/-- Calendar date; in this model `year ≥ 1`, `1 ≤ month ≤ 12` and day is a
valid day of the month, as enforced by Python `datetime`. -/
structure Date where
  year : ℕ
  month : ℕ
  day : ℕ
deriving DecidableEq, Repr

/-- Gregorian leap year, as in Python's `calendar.isleap`. -/
def isLeap (y : ℕ) : Bool := y % 4 == 0 && (y % 100 != 0 || y % 400 == 0)

/-- Days in a month of a given year. -/
def daysInMonth (y m : ℕ) : ℕ :=
  if m = 2 then (if isLeap y then 29 else 28)
  else if m = 4 ∨ m = 6 ∨ m = 9 ∨ m = 11 then 30 else 31

/-- Days before the first of month `m` within year `y`. -/
def daysBeforeMonth (y m : ℕ) : ℕ :=
  let L : ℕ := if isLeap y then 1 else 0
  match m with
  | 0 => 0
  | 1 => 0
  | 2 => 31
  | 3 => 59 + L
  | 4 => 90 + L
  | 5 => 120 + L
  | 6 => 151 + L
  | 7 => 181 + L
  | 8 => 212 + L
  | 9 => 243 + L
  | 10 => 273 + L
  | 11 => 304 + L
  | _ => 334 + L

/-- Proleptic Gregorian ordinal of a date, exactly Python's
`datetime.toordinal`: day 1 is 0001-01-01.  Differences of ordinals are the
`timedelta.days` between the corresponding midnight datetimes, and the
order of ordinals is the order of `datetime` values. -/
def Date.toOrd (d : Date) : ℤ :=
  let p : ℕ := d.year - 1
  365 * (p : ℤ) + ((p / 4 : ℕ) : ℤ) - ((p / 100 : ℕ) : ℤ) + ((p / 400 : ℕ) : ℤ)
    + (daysBeforeMonth d.year d.month : ℤ) + (d.day : ℤ)

/-- A date `datetime` can actually represent. -/
def ValidDate (d : Date) : Prop :=
  1 ≤ d.year ∧ 1 ≤ d.month ∧ d.month ≤ 12 ∧ 1 ≤ d.day ∧ d.day ≤ daysInMonth d.year d.month

instance (d : Date) : Decidable (ValidDate d) := by
  unfold ValidDate; infer_instance

/-- `current_date + relativedelta(months=+1)`: move to the next calendar
month, clamping the day to the length of the target month. -/
def addMonth (d : Date) : Date :=
  if d.month = 12 then
    ⟨d.year + 1, 1, if d.day ≤ daysInMonth (d.year + 1) 1 then d.day else daysInMonth (d.year + 1) 1⟩
  else
    ⟨d.year, d.month + 1,
      if d.day ≤ daysInMonth d.year (d.month + 1) then d.day else daysInMonth d.year (d.month + 1)⟩

/-- `datetime(current_date.year, current_date.month, 1)`. -/
def monthStart (d : Date) : Date := ⟨d.year, d.month, 1⟩

/-- Stable insertion of `x` into a list after every element whose key is
strictly smaller (so that, as in Python's stable sort, elements with equal
keys keep their original relative order). -/
def insertKeyed {α : Type} (key : α → ℤ) (x : α) : List α → List α
  | [] => [x]
  | y :: ys => if key y < key x then y :: insertKeyed key x ys else x :: y :: ys

/-- Stable sort by an integer key, modelling Python's `sorted` / `list.sort`. -/
def sortKeyed {α : Type} (key : α → ℤ) : List α → List α
  | [] => []
  | x :: xs => insertKeyed key x (sortKeyed key xs)

/-- One entry of `prepayment_details`. -/
structure Prepay where
  pdate : Date
  amount : ℚ
deriving DecidableEq, Repr

/-- Row kind: `正常还款` (regular payment) or `提前还款` (prepayment). -/
inductive RowKind
  | regular
  | prepay
deriving DecidableEq, Repr

/-- One dict appended to `schedule`.  The three `Option` fields model dict
keys that are only present once assigned (`月供总额`, `累计已还本金`,
`累计已还利息`). -/
structure Row where
  period : ℕ
  rdate : Date
  kind : RowKind
  principal : ℚ
  interest : ℚ
  remaining : ℚ
  total? : Option ℚ := none
  cumP? : Option ℚ := none
  cumI? : Option ℚ := none
deriving DecidableEq, Repr

/-- The inputs of `generate_repayment_schedule`.  `rateChanges` models the
`rate_changes` dict as an association list with pairwise-distinct dates. -/
structure Params where
  loanAmount : ℚ
  loanYears : ℕ
  firstPayDate : Date
  initialRate : ℚ
  rateChanges : List (Date × ℚ)
  prepays : List Prepay
  repaymentType : String
deriving DecidableEq, Repr

/-- `total_months = loan_years * 12`. -/
def Params.totalMonths (p : Params) : ℕ := p.loanYears * 12

/-- `original_monthly_principal = loan_amount / total_months` (also the
constant `monthly_principal`). -/
def Params.monthlyPrincipal (p : Params) : ℚ := p.loanAmount / (p.totalMonths : ℚ)

/-- The rate-change scan at the top of the loop body: iterate over the
change dates in sorted order and keep overwriting `current_rate` with the
rate of every change whose date is `≤ current_date`; if no change
qualifies, `current_rate` keeps its previous value. -/
def resolveRate (changes : List (Date × ℚ)) (prev : ℚ) (cur : Date) : ℚ :=
  (sortKeyed (fun c => c.1.toOrd) changes).foldl
    (fun r c => if c.1.toOrd ≤ cur.toOrd then c.2 else r) prev

/-- The per-period payment computation (`根据还款类型重新计算当期的还款内容`),
returning `(interest, principal_payment)` or the unsupported-method error.
For `equal_principal`: interest on the current balance at the current
effective rate, principal the constant share.  For `equal_payment`: the
annuity payment is recomputed from the *initial* rate and the full term,
interest is balance times the initial monthly rate. -/
def computeRegular (p : Params) (curRate bal : ℚ) : Except String (ℚ × ℚ) :=
  if p.repaymentType = "equal_principal" then
    .ok (bal * (curRate / 100 / 12), p.monthlyPrincipal)
  else if p.repaymentType = "equal_payment" then
    let r := p.initialRate / 100 / 12
    let A := p.loanAmount * (r * qpow (1 + r) p.totalMonths) / (qpow (1 + r) p.totalMonths - 1)
    .ok (bal * r, A - bal * r)
  else
    .error "unsupported repayment type"

/-- A regular-payment dict as first appended (lines building `'类型': '正常还款'`
rows): remaining balance recorded as balance minus the principal just paid. -/
def mkRegularRow (month : ℕ) (d : Date) (principal interest bal : ℚ) : Row :=
  { period := month, rdate := d, kind := .regular,
    principal := principal, interest := interest, remaining := bal }

/-- A prepayment dict (`'类型': '提前还款'`). -/
def mkPrepayRow (month : ℕ) (d : Date) (amount interest bal : ℚ) : Row :=
  { period := month, rdate := d, kind := .prepay,
    principal := amount, interest := interest, remaining := bal }

/-- The retroactive edit of the just-appended regular row in the
`prepay_date ≥ current_date` branch: restore its remaining balance to the
pre-prepayment value, subtract the prepayment from its principal, recompute
`月供总额` and `累计已还本金`, and add the prepayment interest to
`累计已还利息` (creating the key if absent).  `remAfter` is the balance
after both the regular principal and the prepayment were subtracted. -/
def retroEdit (loan prepayAmount preInt remAfter : ℚ) (r : Row) : Row :=
  { r with
    remaining := remAfter + prepayAmount
    principal := r.principal - prepayAmount
    total? := some ((r.principal - prepayAmount) + r.interest)
    cumP? := some (loan - (remAfter + prepayAmount))
    cumI? := some ((match r.cumI? with | some v => v | none => 0) + preInt) }

/-- State of the prepayment `for` loop inside one `while` iteration:
the schedule so far, the running balance, and whether
`(year, month, day) ∈ processed_months` (the key is constant within one
iteration, so a single flag suffices). -/
structure LoopSt where
  schedule : List Row
  remaining : ℚ
  processedFlag : Bool
deriving DecidableEq, Repr

/-- The body of `for prepay in prepayment_details` for one list element.
`curDate`, `curRate`, `month` are the loop-invariant context of the current
`while` iteration.  (After the two appends in the `≥` branch the schedule
has length at least two, so the `len(schedule) > 1` guard of the
retroactive edit always holds there and is inlined.) -/
def processOne (p : Params) (curDate : Date) (curRate : ℚ) (month : ℕ)
    (st : LoopSt) (pre : Prepay) : Except String LoopSt :=
  if curDate.year = pre.pdate.year ∧ curDate.month = pre.pdate.month then
    if st.processedFlag then .ok st
    else if 0 < pre.amount ∧ 0 < st.remaining then
      (computeRegular p curRate st.remaining).bind fun pay =>
        let interest := pay.1
        let principal := pay.2
        if pre.pdate.toOrd < curDate.toOrd then
          -- prepayment strictly before the payment date: prepayment first
          let days : ℤ :=
            if pre.pdate.toOrd - curDate.toOrd ≤ 1 then 1 else pre.pdate.toOrd - curDate.toOrd
          let daily := st.remaining * curRate / 100 / 365
          let preInt := daily * (days : ℚ)
          let rem1 := st.remaining - pre.amount
          .ok { schedule := st.schedule
                  ++ [mkPrepayRow month pre.pdate pre.amount preInt rem1,
                      mkRegularRow month curDate principal interest (rem1 - principal)],
                remaining := rem1 - principal,
                processedFlag := true }
        else
          -- payment date first, then the prepayment, then the retroactive edit
          let rem1 := st.remaining - principal
          let days : ℤ :=
            if pre.pdate.toOrd - curDate.toOrd ≤ 1 then 1 else pre.pdate.toOrd - curDate.toOrd
          let daily := rem1 * curRate / 100 / 365
          let preInt := daily * (days : ℚ)
          let rem2 := rem1 - pre.amount
          .ok { schedule := st.schedule
                  ++ [retroEdit p.loanAmount pre.amount preInt rem2
                        (mkRegularRow month curDate principal interest rem1),
                      mkPrepayRow month pre.pdate pre.amount preInt rem2],
                remaining := rem2,
                processedFlag := true }
    else .ok st
  else
    if st.processedFlag then .ok st
    else (computeRegular p curRate st.remaining).bind fun pay =>
      .ok { schedule := st.schedule
              ++ [mkRegularRow month curDate pay.2 pay.1 (st.remaining - pay.2)],
            remaining := st.remaining - pay.2,
            processedFlag := true }

/-- The whole `for prepay in prepayment_details` loop. -/
def processList (p : Params) (curDate : Date) (curRate : ℚ) (month : ℕ)
    (st : LoopSt) : List Prepay → Except String LoopSt
  | [] => .ok st
  | pre :: rest =>
    (processOne p curDate curRate month st pre).bind fun st' =>
      processList p curDate curRate month st' rest

/-- State of the `while` loop. -/
structure SimState where
  schedule : List Row
  remaining : ℚ
  prepays : List Prepay
  currentDate : Date
  month : ℕ
  currentRate : ℚ
deriving DecidableEq, Repr

/-- One iteration of the `while` loop: resolve the rate, filter the pending
prepayments to those dated on or after the first of the current month, run
the prepayment loop, fall back to a plain regular payment when the pending
list is empty, clamp a balance of at most 0.01 to zero, and either stop
(`break`, no date advance) or move to the next month.  The `continue` that
Python would take when the pending list is empty but the month was already
processed is unreachable (the flag is only set inside the loop body); it is
modelled as returning with nothing advanced. -/
def stepMonth (p : Params) (s : SimState) : Except String SimState :=
  let rate := resolveRate p.rateChanges s.currentRate s.currentDate
  let pending := s.prepays.filter (fun it => (monthStart s.currentDate).toOrd ≤ it.pdate.toOrd)
  (processList p s.currentDate rate s.month ⟨s.schedule, s.remaining, false⟩ pending).bind
    fun st0 =>
      if pending.isEmpty ∧ st0.processedFlag then
        .ok { s with currentRate := rate, prepays := pending }
      else
        (if pending.isEmpty then
          (computeRegular p rate st0.remaining).map fun pay =>
            (⟨st0.schedule
                ++ [mkRegularRow s.month s.currentDate pay.2 pay.1 (st0.remaining - pay.2)],
              st0.remaining - pay.2, true⟩ : LoopSt)
         else .ok st0).map fun st1 =>
          let rem := if st1.remaining ≤ 1/100 then 0 else st1.remaining
          if rem ≤ 0 then
            { schedule := st1.schedule, remaining := rem, prepays := pending,
              currentDate := s.currentDate, month := s.month, currentRate := rate }
          else
            { schedule := st1.schedule, remaining := rem, prepays := pending,
              currentDate := addMonth s.currentDate, month := s.month + 1,
              currentRate := rate }

/-- The `while remaining_principal > 0 and month <= total_months` loop,
with fuel; every productive iteration increments `month`, so
`total_months` fuel runs the loop to completion. -/
def simulate (p : Params) : ℕ → SimState → Except String SimState
  | 0, s => .ok s
  | fuel + 1, s =>
    if 0 < s.remaining ∧ s.month ≤ p.totalMonths then
      (stepMonth p s).bind (simulate p fuel)
    else .ok s

/-- Initial loop state: the prepayment list is sorted by date up front. -/
def initState (p : Params) : SimState :=
  { schedule := [], remaining := p.loanAmount,
    prepays := sortKeyed (fun x => x.pdate.toOrd) p.prepays,
    currentDate := p.firstPayDate, month := 1, currentRate := p.initialRate }

/-- Run the whole simulation loop. -/
def runSim (p : Params) : Except String SimState :=
  simulate p p.totalMonths (initState p)

/-- The first finalization pass (`统一计算累计数据`): recompute the two
cumulative columns as running sums of the per-row principal and interest. -/
def cumulPass (tp ti : ℚ) : List Row → List Row
  | [] => []
  | r :: rs =>
    { r with cumP? := some (tp + r.principal), cumI? := some (ti + r.interest) } ::
      cumulPass (tp + r.principal) (ti + r.interest) rs

/-- The last-row fixup (`检查并修正最后一期本金`): when the recorded remaining
balance of the last row is more than `1e-5` in absolute value, subtract it
from the last row's principal, zero the recorded balance, set the row's
cumulative principal to the loan amount and recompute its total payment. -/
def fixLast (loan : ℚ) (rows : List Row) : List Row :=
  match rows.getLast? with
  | none => rows
  | some last =>
    if 1/100000 < qabs last.remaining then
      rows.dropLast ++
        [{ last with
            principal := last.principal - last.remaining,
            remaining := 0,
            cumP? := some loan,
            total? := some ((last.principal - last.remaining) + last.interest) }]
    else rows

/-- The raw schedule after both finalization passes. -/
def finalizedRows (p : Params) (s : SimState) : List Row :=
  fixLast p.loanAmount (cumulPass 0 0 s.schedule)

/-- One row of the output table, all money columns rounded to two decimals. -/
structure FinalRow where
  period : ℕ
  rdate : Date
  kind : RowKind
  principal : ℚ
  interest : ℚ
  remaining : ℚ
  cumP : ℚ
  cumI : ℚ
  total : ℚ
deriving DecidableEq, Repr

/-- The DataFrame stage: `月供总额 = 月供本金 + 月供利息`, cumulative columns
as running sums rounded to 6 decimals, `剩余本金 = (loan − 累计已还本金).round(6)`,
then every money column rounded to 2 decimals.  `sp`/`si` are the running
sums of principal and interest over the earlier rows. -/
def buildOut (loan : ℚ) (sp si : ℚ) : List Row → List FinalRow
  | [] => []
  | r :: rs =>
    { period := r.period, rdate := r.rdate, kind := r.kind,
      principal := round2 r.principal,
      interest := round2 r.interest,
      remaining := round2 (round6 (loan - round6 (sp + r.principal))),
      cumP := round2 (round6 (sp + r.principal)),
      cumI := round2 (round6 (si + r.interest)),
      total := round2 (r.principal + r.interest) } :: buildOut loan (sp + r.principal) (si + r.interest) rs

/-- The whole generator: simulate, finalize, and build the output table. -/
def generate (p : Params) : Except String (List FinalRow) :=
  (runSim p).map fun s => buildOut p.loanAmount 0 0 (finalizedRows p s)

/-- Decidable equality of results, used to state concrete evaluations. -/
instance {α : Type} [DecidableEq α] : DecidableEq (Except String α) := fun a b =>
  match a, b with
  | .ok x, .ok y => if h : x = y then .isTrue (by rw [h]) else .isFalse (by simp [h])
  | .error x, .error y => if h : x = y then .isTrue (by rw [h]) else .isFalse (by simp [h])
  | .ok _, .error _ => .isFalse (by simp)
  | .error _, .ok _ => .isFalse (by simp)

/-- A 1200-unit, 1-year, equal-principal loan (rate 3.25%) with a 100-unit
prepayment dated exactly on the period-2 payment date. -/
def exA : Params :=
  { loanAmount := 1200, loanYears := 1, firstPayDate := ⟨2022, 9, 12⟩,
    initialRate := 13/4, rateChanges := [], prepays := [⟨⟨2022, 10, 12⟩, 100⟩],
    repaymentType := "equal_principal" }

/-- Same loan as `exA` with a 120-unit prepayment (larger than the constant
monthly principal share of 100). -/
def exB : Params := { exA with prepays := [⟨⟨2022, 10, 12⟩, 120⟩] }

/-- A 1000-unit, 1-year, equal-installment loan at 12% with a 100-unit
prepayment dated exactly on the period-2 payment date. -/
def exC : Params :=
  { loanAmount := 1000, loanYears := 1, firstPayDate := ⟨2022, 9, 12⟩,
    initialRate := 12, rateChanges := [], prepays := [⟨⟨2022, 10, 12⟩, 100⟩],
    repaymentType := "equal_payment" }

/-- The loan of `exC` with a mid-loan rate change to 24% effective
2022-10-01. -/
def exD : Params := { exC with rateChanges := [(⟨2022, 10, 1⟩, 24)] }

/-- The loan of `exA` with an unrecognized repayment-method tag. -/
def exBad : Params := { exA with repaymentType := "monthly" }

/-- A two-row run: 10 units over 1 year at 0%, equal principal, with a
prepayment of 9.2 on the first payment date, which retires the loan in the
first simulated month. -/
def exW : Params :=
  { loanAmount := 10, loanYears := 1, firstPayDate := ⟨2022, 9, 12⟩,
    initialRate := 0, rateChanges := [], prepays := [⟨⟨2022, 9, 12⟩, 46/5⟩],
    repaymentType := "equal_principal" }

/-- The final simulation state of `exW` (checked by evaluation below). -/
def sW : SimState :=
  { schedule :=
      [{ period := 1, rdate := ⟨2022, 9, 12⟩, kind := .regular,
         principal := -251/30, interest := 0, remaining := 55/6,
         total? := some (-251/30), cumP? := some (5/6), cumI? := some 0 },
       { period := 1, rdate := ⟨2022, 9, 12⟩, kind := .prepay,
         principal := 46/5, interest := 0, remaining := -1/30 }],
    remaining := 0,
    prepays := [⟨⟨2022, 9, 12⟩, 46/5⟩],
    currentDate := ⟨2022, 9, 12⟩, month := 1, currentRate := 0 }

/-- The output table of `exW` (checked by evaluation below). -/
def rowsW : List FinalRow :=
  [{ period := 1, rdate := ⟨2022, 9, 12⟩, kind := .regular,
     principal := -837/100, interest := 0, remaining := 1837/100,
     cumP := -837/100, cumI := 0, total := -837/100 },
   { period := 1, rdate := ⟨2022, 9, 12⟩, kind := .prepay,
     principal := 923/100, interest := 0, remaining := 913/100,
     cumP := 87/100, cumI := 0, total := 923/100 }]

/-- The spec's reference scenario: 400000 over 30 years, equal principal,
3.25%, no rate changes, no prepayments. -/
def ex400k : Params :=
  { loanAmount := 400000, loanYears := 30, firstPayDate := ⟨2022, 9, 12⟩,
    initialRate := 13/4, rateChanges := [], prepays := [],
    repaymentType := "equal_principal" }

/-- Written from the spec's words for the rate resolver: among the
registered changes with effective date ≤ `d`, the one with the latest
effective date; on equal dates the later-inserted entry wins. -/
def latestChange : List (Date × ℚ) → Date → Option (Date × ℚ)
  | [], _ => none
  | c :: t, d =>
    match latestChange t d with
    | none => if c.1.toOrd ≤ d.toOrd then some c else none
    | some b => if c.1.toOrd ≤ d.toOrd ∧ b.1.toOrd < c.1.toOrd then some c else some b

/-- Modelled from the spec: "the effective rate at date d is the rate of the
latest change with effective date ≤ d, defaulting to the initial rate if
none apply yet". -/
def specEffectiveRate (changes : List (Date × ℚ)) (dflt : ℚ) (d : Date) : ℚ :=
  match latestChange changes d with
  | some c => c.2
  | none => dflt

/-- The last element of a list satisfying a predicate, if any (the value the
rate-scan's repeated overwriting ends up with). -/
def lastSat {α : Type} (q : α → Prop) [DecidablePred q] : List α → Option α
  | [] => none
  | c :: t =>
    match lastSat q t with
    | some r => some r
    | none => if q c then some c else none

/-- Sum of the principal column of the first `n` rows. -/
def sumPrin (rows : List Row) (n : ℕ) : ℚ := ((rows.take n).map Row.principal).sum

/-- Sum of the interest column of the first `n` rows. -/
def sumInt (rows : List Row) (n : ℕ) : ℚ := ((rows.take n).map Row.interest).sum

/-- The rate-independent view of an output row: every column except the
cumulative interest, and except interest and total payment on Prepayment
rows (whose interest is accrued at the current effective rate). -/
def rateFreeView (r : FinalRow) : ℕ × Date × RowKind × ℚ × ℚ × ℚ × Option (ℚ × ℚ) :=
  (r.period, r.rdate, r.kind, r.principal, r.remaining, r.cumP,
    match r.kind with
    | .regular => some (r.interest, r.total)
    | .prepay => none)

/-- Invariant of the simulation loop relevant to rate resolution: the date
cursor is a real calendar date, and the running `current_rate` still equals
the initial rate as long as no registered change date has been reached. -/
def RateInv (p : Params) (s : SimState) : Prop :=
  ValidDate s.currentDate ∧
    ((∀ c ∈ p.rateChanges, ¬ c.1.toOrd ≤ s.currentDate.toOrd) →
      s.currentRate = p.initialRate)

/-- Equality of raw schedule rows on every field that does not depend on
the rate timeline under the equal-installment method: the recorded interest
of a Prepayment row (accrued at the current effective rate) is exempt, as
are the optional bookkeeping fields, which the output table recomputes. -/
def Req (r r' : Row) : Prop :=
  r.period = r'.period ∧ r.rdate = r'.rdate ∧ r.kind = r'.kind ∧
    r.principal = r'.principal ∧ r.remaining = r'.remaining ∧
    (r.kind = RowKind.regular → r.interest = r'.interest)

/-- `Req` lifted to prepayment-loop states. -/
def LReq (st st' : LoopSt) : Prop :=
  List.Forall₂ Req st.schedule st'.schedule ∧ st.remaining = st'.remaining ∧
    st.processedFlag = st'.processedFlag

/-- `Req` lifted to simulation states; the running rate is unconstrained. -/
def SimRel (s s' : SimState) : Prop :=
  List.Forall₂ Req s.schedule s'.schedule ∧ s.remaining = s'.remaining ∧
    s.prepays = s'.prepays ∧ s.currentDate = s'.currentDate ∧ s.month = s'.month

/-- A relation on payloads lifted to `Except` results: matching
constructors, related success payloads, identical error messages. -/
def ERel {α : Type} (R : α → α → Prop) : Except String α → Except String α → Prop
  | .ok a, .ok b => R a b
  | .error e, .error f => e = f
  | .ok _, .error _ => False
  | .error _, .ok _ => False

/-- The equal-principal invariant: every Regular row that the retroactive
prepayment edit has not touched (that edit is the only writer of the
cumulative-principal key before finalization) carries the constant
principal share. -/
def GoodRows (mp : ℚ) (l : List Row) : Prop :=
  ∀ r ∈ l, r.kind = RowKind.regular → r.cumP? = none → r.principal = mp

/-- The loop state after the one applied prepayment in the C8 scenario:
period 2 of the loan `exA`, prepayment loop started on an empty schedule
with balance 1200 at rate 3.25 (checked by evaluation below). -/
def st8 : LoopSt :=
  { schedule :=
      [{ period := 2, rdate := ⟨2022, 10, 12⟩, kind := .regular,
         principal := 0, interest := 13/4, remaining := 1100,
         total? := some (13/4), cumP? := some 100, cumI? := some (143/1460) },
       { period := 2, rdate := ⟨2022, 10, 12⟩, kind := .prepay,
         principal := 100, interest := 143/1460, remaining := 1000 }],
    remaining := 1000, processedFlag := true }

theorem qfloor_eq_floor (x : ℚ) : qfloor x = ⌊x⌋ := Rat.floor_def.symm

theorem floor_le_rnd (x : ℚ) : ⌊x⌋ ≤ rnd x := by
  simp only [rnd, qfloor_eq_floor]
  split_ifs <;> omega

theorem rnd_le_floor_add_one (x : ℚ) : rnd x ≤ ⌊x⌋ + 1 := by
  simp only [rnd, qfloor_eq_floor]
  split_ifs <;> omega

theorem rnd_mono {x y : ℚ} (h : x ≤ y) : rnd x ≤ rnd y := by
  rcases lt_or_eq_of_le (Int.floor_mono h) with hf | hf
  · calc rnd x ≤ ⌊x⌋ + 1 := rnd_le_floor_add_one x
    _ ≤ ⌊y⌋ := by omega
    _ ≤ rnd y := floor_le_rnd y
  · simp only [rnd, qfloor_eq_floor, hf]
    have hr : x - (⌊y⌋ : ℚ) ≤ y - (⌊y⌋ : ℚ) := by linarith
    split_ifs with h1 h2 h3 h4 h5 h6 h7 <;> try omega
    all_goals linarith

theorem rnd_intCast (z : ℤ) : rnd (z : ℚ) = z := by
  simp only [rnd, qfloor_eq_floor, Int.floor_intCast, sub_self]
  norm_num

theorem roundTo_mono (n : ℕ) {x y : ℚ} (h : x ≤ y) : roundTo n x ≤ roundTo n y := by
  unfold roundTo
  have hp : (0 : ℚ) < 10 ^ n := by positivity
  have hm : x * 10 ^ n ≤ y * 10 ^ n := mul_le_mul_of_nonneg_right h (le_of_lt hp)
  have hc : ((rnd (x * 10 ^ n) : ℤ) : ℚ) ≤ ((rnd (y * 10 ^ n) : ℤ) : ℚ) := by
    exact_mod_cast rnd_mono hm
  exact (div_le_div_iff_of_pos_right hp).mpr hc

theorem roundTo_zero (n : ℕ) : roundTo n 0 = 0 := by
  unfold roundTo
  rw [zero_mul]
  have h0 : rnd ((0 : ℤ) : ℚ) = 0 := rnd_intCast 0
  simp only [Int.cast_zero] at h0
  rw [h0]
  simp

theorem roundTo_nonneg (n : ℕ) {x : ℚ} (h : 0 ≤ x) : 0 ≤ roundTo n x := by
  have := roundTo_mono n h
  rwa [roundTo_zero] at this

theorem roundTo_int (n : ℕ) {x : ℚ} {z : ℤ} (h : x * 10 ^ n = (z : ℚ)) : roundTo n x = x := by
  unfold roundTo
  rw [h, rnd_intCast, ← h]
  have hp : (10 : ℚ) ^ n ≠ 0 := by positivity
  field_simp

theorem nat_div_succ_delta (y : ℕ) (b : ℕ) :
    (y + 1) / b = y / b + if b ∣ y + 1 then 1 else 0 := Nat.succ_div y b

theorem leap_delta (y : ℕ) :
    ((if 4 ∣ y + 1 then (1 : ℤ) else 0) - (if 100 ∣ y + 1 then 1 else 0)
      + (if 400 ∣ y + 1 then 1 else 0)) = (if isLeap (y + 1) then 1 else 0) := by
  simp only [Nat.dvd_iff_mod_eq_zero, isLeap, Bool.and_eq_true, Bool.or_eq_true,
    beq_iff_eq, bne_iff_ne, ne_eq]
  split_ifs <;> omega

theorem daysInMonth_ge (y m : ℕ) : 28 ≤ daysInMonth y m := by
  unfold daysInMonth
  split_ifs <;> omega

theorem daysInMonth_le (y m : ℕ) : daysInMonth y m ≤ 31 := by
  unfold daysInMonth
  split_ifs <;> omega

theorem toOrd_lt_addMonth {d : Date} (h : ValidDate d) : d.toOrd < (addMonth d).toOrd := by
  obtain ⟨y, m, day⟩ := d
  obtain ⟨hy, hm1, hm2, hd1, hd2⟩ := h
  simp only at hy hm1 hm2 hd1 hd2
  by_cases h12 : m = 12
  · subst h12
    obtain ⟨y', rfl⟩ : ∃ y', y = y' + 1 := ⟨y - 1, by omega⟩
    have hday : day ≤ 31 := le_trans hd2 (daysInMonth_le _ _)
    have hjan : daysInMonth (y' + 1 + 1) 1 = 31 := by norm_num [daysInMonth]
    unfold addMonth
    rw [if_pos rfl, hjan, if_pos hday]
    unfold Date.toOrd
    dsimp only
    have hp1 : y' + 1 - 1 = y' := by omega
    have hp2 : y' + 1 + 1 - 1 = y' + 1 := by omega
    rw [hp1, hp2]
    have c4 : (((y' + 1) / 4 : ℕ) : ℤ) = ((y' / 4 : ℕ) : ℤ) + (if 4 ∣ y' + 1 then 1 else 0) := by
      rw [Nat.succ_div]
      split_ifs <;> push_cast <;> ring
    have c100 : (((y' + 1) / 100 : ℕ) : ℤ)
        = ((y' / 100 : ℕ) : ℤ) + (if 100 ∣ y' + 1 then 1 else 0) := by
      rw [Nat.succ_div]
      split_ifs <;> push_cast <;> ring
    have c400 : (((y' + 1) / 400 : ℕ) : ℤ)
        = ((y' / 400 : ℕ) : ℤ) + (if 400 ∣ y' + 1 then 1 else 0) := by
      rw [Nat.succ_div]
      split_ifs <;> push_cast <;> ring
    rw [c4, c100, c400]
    have hld := leap_delta y'
    have hdbm12 : (daysBeforeMonth (y' + 1) 12 : ℤ)
        = 334 + (if isLeap (y' + 1) then 1 else 0) := by
      unfold daysBeforeMonth
      dsimp only
      split_ifs <;> norm_num
    have hdbm1 : (daysBeforeMonth (y' + 1 + 1) 1 : ℤ) = 0 := by
      unfold daysBeforeMonth
      norm_num
    rw [hdbm12, hdbm1]
    split_ifs at hld ⊢ <;> push_cast at * <;> omega
  · have hmlt : m < 12 := by omega
    unfold addMonth
    rw [if_neg h12]
    unfold Date.toOrd
    dsimp only
    have key : (daysBeforeMonth y m : ℤ) + day
        < (daysBeforeMonth y (m + 1) : ℤ)
          + (if day ≤ daysInMonth y (m + 1) then day else daysInMonth y (m + 1)) := by
      have hdub : day ≤ daysInMonth y m := hd2
      interval_cases m <;> cases hL : isLeap y <;>
        norm_num [daysBeforeMonth, daysInMonth, hL] at hdub ⊢ <;> omega
    have hcast : ((if day ≤ daysInMonth y (m + 1) then day else daysInMonth y (m + 1) : ℕ) : ℤ)
        = (if day ≤ daysInMonth y (m + 1) then (day : ℤ) else (daysInMonth y (m + 1) : ℤ)) := by
      split_ifs <;> rfl
    rw [hcast]
    omega

theorem validDate_addMonth {d : Date} (h : ValidDate d) : ValidDate (addMonth d) := by
  obtain ⟨y, m, day⟩ := d
  obtain ⟨hy, hm1, hm2, hd1, hd2⟩ := h
  simp only at hy hm1 hm2 hd1 hd2
  by_cases h12 : m = 12
  · subst h12
    have h28 := daysInMonth_ge (y + 1) 1
    unfold addMonth
    rw [if_pos rfl]
    unfold ValidDate
    dsimp only
    refine ⟨by omega, by omega, by omega, ?_, ?_⟩ <;> split_ifs with hc <;> omega
  · have h28 := daysInMonth_ge y (m + 1)
    unfold addMonth
    rw [if_neg h12]
    unfold ValidDate
    dsimp only
    refine ⟨by omega, by omega, by omega, ?_, ?_⟩ <;> split_ifs with hc <;> omega

theorem mem_insertKeyed {α : Type} (key : α → ℤ) (x a : α) (l : List α) :
    a ∈ insertKeyed key x l ↔ a = x ∨ a ∈ l := by
  induction l with
  | nil => simp [insertKeyed]
  | cons y ys ih =>
    unfold insertKeyed
    split_ifs with hk
    · simp only [List.mem_cons, ih]
      tauto
    · simp only [List.mem_cons]

theorem mem_sortKeyed {α : Type} (key : α → ℤ) (a : α) (l : List α) :
    a ∈ sortKeyed key l ↔ a ∈ l := by
  induction l with
  | nil => simp [sortKeyed]
  | cons y ys ih =>
    unfold sortKeyed
    rw [mem_insertKeyed, ih]
    simp only [List.mem_cons]

theorem insertKeyed_perm {α : Type} (key : α → ℤ) (x : α) (l : List α) :
    (insertKeyed key x l).Perm (x :: l) := by
  induction l with
  | nil => simp [insertKeyed]
  | cons y ys ih =>
    unfold insertKeyed
    split_ifs with hk
    · exact ((ih.cons y).trans (List.Perm.swap x y ys))
    · exact List.Perm.refl _

theorem sortKeyed_perm {α : Type} (key : α → ℤ) (l : List α) :
    (sortKeyed key l).Perm l := by
  induction l with
  | nil => exact List.Perm.refl _
  | cons y ys ih =>
    exact (insertKeyed_perm key y (sortKeyed key ys)).trans (ih.cons y)

theorem insertKeyed_sorted {α : Type} (key : α → ℤ) (x : α) (l : List α)
    (h : l.Pairwise (fun a b => key a ≤ key b)) :
    (insertKeyed key x l).Pairwise (fun a b => key a ≤ key b) := by
  induction l with
  | nil => simp [insertKeyed]
  | cons y ys ih =>
    rw [List.pairwise_cons] at h
    unfold insertKeyed
    split_ifs with hk
    · rw [List.pairwise_cons]
      refine ⟨?_, ih h.2⟩
      intro b hb
      rcases (mem_insertKeyed key x b ys).mp hb with hb | hb
      · subst hb
        omega
      · exact h.1 b hb
    · rw [List.pairwise_cons]
      refine ⟨?_, List.pairwise_cons.mpr h⟩
      intro b hb
      rcases List.mem_cons.mp hb with hb | hb
      · subst hb
        omega
      · have := h.1 b hb
        omega

theorem sortKeyed_sorted {α : Type} (key : α → ℤ) (l : List α) :
    (sortKeyed key l).Pairwise (fun a b => key a ≤ key b) := by
  induction l with
  | nil => simp [sortKeyed]
  | cons y ys ih => exact insertKeyed_sorted key y _ ih

theorem lastSat_cons {α : Type} (q : α → Prop) [DecidablePred q] (x : α) (t : List α) :
    lastSat q (x :: t)
      = match lastSat q t with
        | some r => some r
        | none => if q x then some x else none := rfl

theorem lastSat_mem {α : Type} {q : α → Prop} [DecidablePred q] {l : List α} {c : α}
    (h : lastSat q l = some c) : c ∈ l ∧ q c := by
  induction l with
  | nil => simp [lastSat] at h
  | cons x t ih =>
    rw [lastSat_cons] at h
    cases hl : lastSat q t with
    | some r =>
      rw [hl] at h
      dsimp only at h
      obtain ⟨hm, hq⟩ := ih (hl.trans h)
      exact ⟨List.mem_cons_of_mem x hm, hq⟩
    | none =>
      rw [hl] at h
      dsimp only at h
      split_ifs at h with hq
      · cases h
        exact ⟨List.mem_cons_self .., hq⟩

theorem lastSat_none_iff {α : Type} {q : α → Prop} [DecidablePred q] {l : List α} :
    lastSat q l = none ↔ ∀ c ∈ l, ¬ q c := by
  induction l with
  | nil => simp [lastSat]
  | cons x t ih =>
    rw [lastSat_cons]
    cases hl : lastSat q t with
    | some r =>
      dsimp only
      simp only [List.mem_cons]
      constructor
      · intro h
        cases h
      · intro h
        exfalso
        obtain ⟨hm, hq⟩ := lastSat_mem hl
        exact h r (Or.inr hm) hq
    | none =>
      rw [hl] at ih
      dsimp only
      simp only [List.mem_cons]
      split_ifs with hq
      · constructor
        · intro h
          cases h
        · intro h
          exact absurd hq (h x (Or.inl rfl))
      · constructor
        · intro _ c hc
          rcases hc with rfl | hc
          · exact hq
          · exact (ih.mp rfl) c hc
        · intro _
          rfl

theorem lastSat_max {α : Type} (key : α → ℤ) {q : α → Prop} [DecidablePred q] {l : List α}
    {c : α} (hs : l.Pairwise (fun a b => key a ≤ key b)) (h : lastSat q l = some c) :
    ∀ b ∈ l, q b → key b ≤ key c := by
  induction l with
  | nil => simp [lastSat] at h
  | cons x t ih =>
    rw [List.pairwise_cons] at hs
    rw [lastSat_cons] at h
    intro b hb hqb
    cases hl : lastSat q t with
    | some r =>
      rw [hl] at h
      dsimp only at h
      cases h
      rcases List.mem_cons.mp hb with rfl | hb
      · exact hs.1 c (lastSat_mem hl).1
      · exact ih hs.2 hl b hb hqb
    | none =>
      rw [hl] at h
      dsimp only at h
      split_ifs at h with hq
      · cases h
        rcases List.mem_cons.mp hb with rfl | hb
        · exact le_refl _
        · exact absurd hqb (lastSat_none_iff.mp hl b hb)

theorem pairwise_key_inj {α : Type} (key : α → ℤ) {l : List α}
    (hd : l.Pairwise (fun a b => key a ≠ key b)) {a b : α}
    (ha : a ∈ l) (hb : b ∈ l) (hk : key a = key b) : a = b := by
  induction l with
  | nil => cases ha
  | cons x t ih =>
    rw [List.pairwise_cons] at hd
    rcases List.mem_cons.mp ha with rfl | ha' <;> rcases List.mem_cons.mp hb with rfl | hb'
    · rfl
    · exact absurd hk (hd.1 b hb')
    · exact absurd hk.symm (hd.1 a ha')
    · exact ih hd.2 ha' hb'

theorem latestChange_cons (c : Date × ℚ) (t : List (Date × ℚ)) (d : Date) :
    latestChange (c :: t) d
      = match latestChange t d with
        | none => if c.1.toOrd ≤ d.toOrd then some c else none
        | some b =>
          if c.1.toOrd ≤ d.toOrd ∧ b.1.toOrd < c.1.toOrd then some c else some b := rfl

theorem latestChange_none_iff {l : List (Date × ℚ)} {d : Date} :
    latestChange l d = none ↔ ∀ c ∈ l, ¬ c.1.toOrd ≤ d.toOrd := by
  induction l with
  | nil => simp [latestChange]
  | cons c t ih =>
    rw [latestChange_cons]
    cases hl : latestChange t d with
    | some b =>
      dsimp only
      simp only [List.mem_cons]
      constructor
      · intro h
        split_ifs at h
      · intro h
        exfalso
        have hne : latestChange t d ≠ none := by
          rw [hl]
          exact Option.some_ne_none b
        rw [Ne, ih] at hne
        push_neg at hne
        obtain ⟨e, he, hq⟩ := hne
        exact h e (Or.inr he) hq
    | none =>
      rw [hl] at ih
      dsimp only
      simp only [List.mem_cons]
      split_ifs with hq
      · constructor
        · intro h
          cases h
        · intro h
          exact absurd hq (h c (Or.inl rfl))
      · constructor
        · intro _ e he
          rcases he with rfl | he
          · exact hq
          · exact (ih.mp rfl) e he
        · intro _
          rfl

theorem latestChange_mem {l : List (Date × ℚ)} {d : Date} {c : Date × ℚ}
    (h : latestChange l d = some c) : c ∈ l ∧ c.1.toOrd ≤ d.toOrd := by
  induction l with
  | nil => simp [latestChange] at h
  | cons x t ih =>
    rw [latestChange_cons] at h
    cases hl : latestChange t d with
    | some b =>
      rw [hl] at h
      dsimp only at h
      split_ifs at h with hq
      · cases h
        exact ⟨List.mem_cons_self .., hq.1⟩
      · cases h
        obtain ⟨hm, hqb⟩ := ih hl
        exact ⟨List.mem_cons_of_mem x hm, hqb⟩
    | none =>
      rw [hl] at h
      dsimp only at h
      split_ifs at h with hq
      · cases h
        exact ⟨List.mem_cons_self .., hq⟩

theorem latestChange_max {l : List (Date × ℚ)} {d : Date} :
    ∀ {c : Date × ℚ}, latestChange l d = some c →
      ∀ b ∈ l, b.1.toOrd ≤ d.toOrd → b.1.toOrd ≤ c.1.toOrd := by
  induction l with
  | nil =>
    intro c h
    simp [latestChange] at h
  | cons x t ih =>
    intro c h b hb hqb
    rw [latestChange_cons] at h
    cases hl : latestChange t d with
    | some r =>
      rw [hl] at h
      dsimp only at h
      split_ifs at h with hq
      · cases h
        rcases List.mem_cons.mp hb with rfl | hb'
        · exact le_refl _
        · exact le_trans (ih hl b hb' hqb) (le_of_lt hq.2)
      · cases h
        rcases List.mem_cons.mp hb with rfl | hb'
        · push_neg at hq
          exact hq hqb
        · exact ih hl b hb' hqb
    | none =>
      rw [hl] at h
      dsimp only at h
      split_ifs at h with hq
      · cases h
        rcases List.mem_cons.mp hb with rfl | hb'
        · exact le_refl _
        · exact absurd hqb (latestChange_none_iff.mp hl b hb')

theorem foldl_rate_eq_lastSat (d : Date) (l : List (Date × ℚ)) (prev : ℚ) :
    l.foldl (fun r c => if c.1.toOrd ≤ d.toOrd then c.2 else r) prev
      = match lastSat (fun c => c.1.toOrd ≤ d.toOrd) l with
        | some c => c.2
        | none => prev := by
  induction l generalizing prev with
  | nil => rfl
  | cons c t ih =>
    simp only [List.foldl_cons]
    rw [ih, lastSat_cons]
    cases hl : lastSat (fun c => c.1.toOrd ≤ d.toOrd) t with
    | some r =>
      dsimp only
    | none =>
      dsimp only
      split_ifs <;> rfl

theorem resolveRate_no_qual {changes : List (Date × ℚ)} {prev : ℚ} {d : Date}
    (h : ∀ c ∈ changes, ¬ c.1.toOrd ≤ d.toOrd) :
    resolveRate changes prev d = prev := by
  unfold resolveRate
  rw [foldl_rate_eq_lastSat]
  cases hl : lastSat (fun c => c.1.toOrd ≤ d.toOrd) (sortKeyed (fun c => c.1.toOrd) changes) with
  | none => rfl
  | some c =>
    exfalso
    obtain ⟨hm, hq⟩ := lastSat_mem hl
    exact h c ((mem_sortKeyed _ c changes).mp hm) hq

theorem resolveRate_eq_spec {changes : List (Date × ℚ)} {prev dflt : ℚ} {d : Date}
    (hdist : changes.Pairwise (fun a b => a.1.toOrd ≠ b.1.toOrd))
    (hprev : (∀ c ∈ changes, ¬ c.1.toOrd ≤ d.toOrd) → prev = dflt) :
    resolveRate changes prev d = specEffectiveRate changes dflt d := by
  unfold resolveRate specEffectiveRate
  rw [foldl_rate_eq_lastSat]
  have hdist' : (sortKeyed (fun c => c.1.toOrd) changes).Pairwise
      (fun a b => a.1.toOrd ≠ b.1.toOrd) :=
    ((sortKeyed_perm (fun c : Date × ℚ => c.1.toOrd) changes).pairwise_iff
      (fun h => Ne.symm h)).mpr hdist
  cases hl : lastSat (fun c => c.1.toOrd ≤ d.toOrd) (sortKeyed (fun c => c.1.toOrd) changes) with
  | none =>
    have hnone : ∀ c ∈ changes, ¬ c.1.toOrd ≤ d.toOrd := by
      intro c hc
      exact lastSat_none_iff.mp hl c ((mem_sortKeyed _ c changes).mpr hc)
    rw [latestChange_none_iff.mpr hnone]
    exact hprev hnone
  | some c =>
    obtain ⟨hmem, hq⟩ := lastSat_mem hl
    have hmem' : c ∈ changes := (mem_sortKeyed _ c changes).mp hmem
    cases hlc : latestChange changes d with
    | none =>
      exact absurd hq (latestChange_none_iff.mp hlc c hmem')
    | some c' =>
      obtain ⟨hmem'', hq'⟩ := latestChange_mem hlc
      have h1 : c.1.toOrd ≤ c'.1.toOrd := latestChange_max hlc c hmem' hq
      have h2 : c'.1.toOrd ≤ c.1.toOrd :=
        lastSat_max (fun c : Date × ℚ => c.1.toOrd)
          (sortKeyed_sorted (fun c : Date × ℚ => c.1.toOrd) changes) hl c'
          ((mem_sortKeyed _ c' changes).mpr hmem'') hq'
      have : c = c' := pairwise_key_inj (fun c : Date × ℚ => c.1.toOrd) hdist hmem' hmem''
        (le_antisymm h1 h2)
      rw [this]

theorem stepMonth_rate_date {p : Params} {s s' : SimState}
    (h : stepMonth p s = .ok s') :
    s'.currentRate = resolveRate p.rateChanges s.currentRate s.currentDate
      ∧ (s'.currentDate = s.currentDate ∨ s'.currentDate = addMonth s.currentDate) := by
  unfold stepMonth at h
  dsimp only at h
  cases hpl : processList p s.currentDate
      (resolveRate p.rateChanges s.currentRate s.currentDate) s.month
      ⟨s.schedule, s.remaining, false⟩
      (s.prepays.filter fun it => (monthStart s.currentDate).toOrd ≤ it.pdate.toOrd) with
  | error e =>
    rw [hpl] at h
    cases h
  | ok st0 =>
    rw [hpl] at h
    dsimp only [Except.bind] at h
    split_ifs at h with h1 h2
    · cases h
      exact ⟨rfl, Or.inl rfl⟩
    · cases hcr : computeRegular p (resolveRate p.rateChanges s.currentRate s.currentDate)
          st0.remaining with
      | error e =>
        rw [hcr] at h
        cases h
      | ok pay =>
        rw [hcr] at h
        dsimp only [Except.map] at h
        split_ifs at h <;> cases h <;>
          first
            | exact ⟨rfl, Or.inl rfl⟩
            | exact ⟨rfl, Or.inr rfl⟩
    · dsimp only [Except.map] at h
      split_ifs at h <;> cases h <;>
        first
          | exact ⟨rfl, Or.inl rfl⟩
          | exact ⟨rfl, Or.inr rfl⟩

theorem rateInv_init {p : Params} (h : ValidDate p.firstPayDate) : RateInv p (initState p) :=
  ⟨h, fun _ => rfl⟩

theorem rateInv_step {p : Params} {s s' : SimState} (hi : RateInv p s)
    (h : stepMonth p s = .ok s') :
    RateInv p s' ∧ s'.currentRate = resolveRate p.rateChanges s.currentRate s.currentDate := by
  obtain ⟨hrate, hdate⟩ := stepMonth_rate_date h
  obtain ⟨hv, hprev⟩ := hi
  have hord : s.currentDate.toOrd ≤ s'.currentDate.toOrd := by
    rcases hdate with hd | hd
    · rw [hd]
    · rw [hd]
      exact le_of_lt (toOrd_lt_addMonth hv)
  refine ⟨⟨?_, ?_⟩, hrate⟩
  · rcases hdate with hd | hd
    · rwa [hd]
    · rw [hd]
      exact validDate_addMonth hv
  · intro hno
    have hno' : ∀ c ∈ p.rateChanges, ¬ c.1.toOrd ≤ s.currentDate.toOrd := by
      intro c hc hle
      exact hno c hc (le_trans hle hord)
    rw [hrate, resolveRate_no_qual hno']
    exact hprev hno'

/-- Claim C7: for every query date during simulation, the effective rate used
is the rate of the latest registered rate-change whose effective date is ≤
the query date, defaulting to the loan's initial rate when no change date
qualifies yet; the lookup does not mutate the timeline (in this embedding it
is a pure function of `p.rateChanges`, which the simulation threads through
unchanged).  The first conjunct establishes the invariant at the initial
state, the second propagates it through every loop iteration and identifies
the stored rate with the resolver's answer for the iteration's date, and the
third identifies that answer with the spec-level latest-change rate. -/
theorem C7_rate_resolution (p : Params)
    (hdist : p.rateChanges.Pairwise (fun a b => a.1.toOrd ≠ b.1.toOrd)) :
    (ValidDate p.firstPayDate → RateInv p (initState p))
    ∧ (∀ s s', RateInv p s → stepMonth p s = .ok s' →
        RateInv p s'
          ∧ s'.currentRate = resolveRate p.rateChanges s.currentRate s.currentDate)
    ∧ (∀ s, RateInv p s →
        resolveRate p.rateChanges s.currentRate s.currentDate
          = specEffectiveRate p.rateChanges p.initialRate s.currentDate) := by
  refine ⟨rateInv_init, fun s s' hi h => rateInv_step hi h, fun s hi => ?_⟩
  exact resolveRate_eq_spec hdist hi.2

/-- Witness for C7 at a concrete input: the loan `exD` with one registered
rate change has pairwise-distinct change dates and a valid first payment
date, and the resolver agrees with the spec-level rate at the initial
state. -/
theorem C7_rate_resolution_witness :
    exD.rateChanges.Pairwise (fun a b => a.1.toOrd ≠ b.1.toOrd)
    ∧ ValidDate exD.firstPayDate
    ∧ resolveRate exD.rateChanges (initState exD).currentRate (initState exD).currentDate
        = specEffectiveRate exD.rateChanges exD.initialRate (initState exD).currentDate :=
  ⟨by decide, by decide,
    (C7_rate_resolution exD (by decide)).2.2 (initState exD)
      ((C7_rate_resolution exD (by decide)).1 (by decide))⟩

/-- Claim C1, evaluated at the failing input `exA` (valid input: positive
principal 1200, positive term 12 months, empty rate map, one positive
prepayment of 100 dated on the period-2 payment date): after finalization
the principal column sums to 1100, not the loan principal 1200, and the last
row's remaining balance is 100 (the prepayment amount), not zero.  The
retroactive edit subtracts the prepayment from the regular row's principal
while the prepayment row also carries it, so the ledger undercounts
principal by the prepayment amount, and the finalizer's recomputation
`剩余本金 = loan − cumsum(月供本金)` then cannot reach zero. -/
theorem C1_principal_sum_bug :
    (generate exA).map (fun rows =>
      ((rows.map FinalRow.principal).sum, (rows.getLast?).map FinalRow.remaining))
        = .ok (1100, some 100)
    ∧ exA.loanAmount = 1200 ∧ (1100 : ℚ) ≠ 1200 ∧ (100 : ℚ) ≠ 0 := by decide

/-- Counterexample to claim C2 as stated: in the finalized output of `exB`
(valid input, one 120-unit prepayment dated on the period-2 payment date)
the remaining-balance column increases from 1100 (row 0) to 1120 (row 1),
because the retroactive prepayment edit gave row 1 the negative principal
100 − 120 = −20. -/
theorem C2_counterexample :
    (generate exB).map (fun rows =>
      ((rows[0]?).map FinalRow.remaining, (rows[1]?).map FinalRow.remaining)) =
      .ok (some 1100, some 1120) ∧ (1100 : ℚ) < 1120 := by decide

/-- Counterexample to claim C3 as stated: for a prepayment dated exactly on
the period's payment date (`daysBetween(periodDate, prepayDate) = 0`), the
appended Prepayment row carries interest 108/365 — one day's accrual on the
post-regular-payment balance 900 at 12% — whereas the claim's formula
`dailyInterest × daysBetween(periodDate, prepayDate)` evaluates to 0.  The
code clamps the day count to a minimum of 1 in this branch too. -/
theorem C3_counterexample :
    ((processOne exA ⟨2022, 10, 12⟩ 12 2 ⟨[], 1000, false⟩ ⟨⟨2022, 10, 12⟩, 50⟩).map
      (fun st => (st.schedule[1]?).map Row.interest)) = .ok (some (108/365))
    ∧ Date.toOrd ⟨2022, 10, 12⟩ - Date.toOrd ⟨2022, 10, 12⟩ = 0
    ∧ (108/365 : ℚ) ≠ 900 * 12 / 100 / 365 * 0 := by decide

/-- Counterexample to claim C4 as stated: in the strictly-before branch
(prepayment 2022-10-05, payment date 2022-10-12, balance 1000, rate 12%,
equal principal) the appended Regular row carries interest 10 =
1000 × 12/100/12, computed on the balance *before* the prepayment
deduction, not on the already-reduced balance 950 (which would give 9.5). -/
theorem C4_counterexample :
    ((processOne exA ⟨2022, 10, 12⟩ 12 2 ⟨[], 1000, false⟩ ⟨⟨2022, 10, 5⟩, 50⟩).map
      (fun st => st.schedule.map (fun r => (r.kind, r.interest, r.principal)))) =
      .ok [(.prepay, 120/365, 50), (.regular, 10, 100)]
    ∧ (10 : ℚ) ≠ (1000 - 50) * (12/100/12) := by decide

/-- Counterexample to claim C5 as stated: in the equal-installment run `exC`
(annuity payment `A = 1000·(r(1+r)^12)/((1+r)^12 − 1)` at monthly rate
r = 1/100), the retroactively edited Regular row of period 2 has principal
`A − interest − 100` (the prepayment amount was subtracted from it), so its
principal does not equal `A − interest`. -/
theorem C5_counterexample :
    ((runSim exC).map (fun s =>
      (s.schedule[1]?).map (fun r => (r.kind, r.principal, r.interest)))) =
      .ok (some (.regular, (-2582503013196972066120100/126825030131969720661201 : ℚ),
        (1168250301319697206612010/126825030131969720661201 : ℚ)))
    ∧ (-2582503013196972066120100/126825030131969720661201 : ℚ) ≠
      exC.loanAmount * ((1/100) * qpow (1 + 1/100) 12) / (qpow (1 + 1/100) 12 - 1)
        - 1168250301319697206612010/126825030131969720661201 := by decide

/-- Counterexample to claim C6 as stated: in the equal-principal run `exB`
the Regular row of period 2 (row index 1 of 12, not the final row) has
principal −20 after the retroactive prepayment edit, not the constant share
`principal ÷ term months` = 100. -/
theorem C6_counterexample :
    ((runSim exB).map (fun s =>
      (s.schedule.length, (s.schedule[1]?).map fun r => (r.kind, r.principal)))) =
      .ok (12, some (.regular, (-20 : ℚ)))
    ∧ exB.monthlyPrincipal = 100 ∧ (-20 : ℚ) ≠ 100 := by decide

/-- Claim C3 (amended): whenever a pending prepayment falls in the current
month with date on or after the period's payment date, the generator appends
the Regular row first and then the Prepayment row; the prepayment interest
is `dailyInterest × max(daysBetween(periodDate, prepayDate), 1)` (the claim
omitted the clamp) with `dailyInterest` computed on the post-regular-payment
balance; the balance is reduced by the prepayment amount; and the
just-appended Regular row is retroactively edited: its remaining balance is
restored to the pre-prepayment-deduction value `remaining − principal`, its
principal is decreased by the prepayment amount, its total payment is
recomputed from the adjusted principal, its cumulative-principal field is
set to loan principal minus the restored balance, and its
cumulative-interest field is set to the prepayment's interest contribution
(the key was absent on the freshly appended row).  The resulting balance
`remaining − principal − amount` — reduced by both the regular principal
and the prepayment — is what the next period's interest computation
receives.  In particular an equal-date prepayment takes this branch, since
equal is not strictly before. -/
theorem C3_regular_then_prepay (p : Params) (curDate : Date) (curRate : ℚ) (month : ℕ)
    (st : LoopSt) (pre : Prepay) (intr prin : ℚ)
    (hy : curDate.year = pre.pdate.year) (hm : curDate.month = pre.pdate.month)
    (hflag : st.processedFlag = false)
    (hamt : 0 < pre.amount) (hrem : 0 < st.remaining)
    (hord : ¬ pre.pdate.toOrd < curDate.toOrd)
    (hcomp : computeRegular p curRate st.remaining = .ok (intr, prin)) :
    processOne p curDate curRate month st pre = .ok
      { schedule := st.schedule ++
          [{ period := month, rdate := curDate, kind := .regular,
             principal := prin - pre.amount,
             interest := intr,
             remaining := st.remaining - prin,
             total? := some (prin - pre.amount + intr),
             cumP? := some (p.loanAmount - (st.remaining - prin)),
             cumI? := some ((st.remaining - prin) * curRate / 100 / 365
               * ((max (pre.pdate.toOrd - curDate.toOrd) 1 : ℤ) : ℚ)) },
           { period := month, rdate := pre.pdate, kind := .prepay,
             principal := pre.amount,
             interest := (st.remaining - prin) * curRate / 100 / 365
               * ((max (pre.pdate.toOrd - curDate.toOrd) 1 : ℤ) : ℚ),
             remaining := st.remaining - prin - pre.amount }],
        remaining := st.remaining - prin - pre.amount,
        processedFlag := true } := by
  unfold processOne
  rw [if_pos ⟨hy, hm⟩, hflag]
  simp only [Bool.false_eq_true, if_false]
  rw [if_pos ⟨hamt, hrem⟩, hcomp]
  dsimp only [Except.bind]
  rw [if_neg hord]
  simp only [retroEdit, mkRegularRow, mkPrepayRow, max_def]
  rw [show st.remaining - prin - pre.amount + pre.amount = st.remaining - prin from by ring,
    zero_add]

/-- Claim C4 (amended): whenever a pending prepayment falls in the current
month with date strictly before the period's payment date, the Prepayment
row is appended first with interest `dailyInterest × max(daysBetween, 1)`
where `dailyInterest = remaining × rate/100/365` on the pre-prepayment
balance; the clamp makes the factor exactly 1 in this branch (the raw day
delta is negative), so the contribution is one day's accrual.  The balance
is reduced by the prepayment amount and the Prepayment row records it.
The Regular payment, however, is the one computed on the balance *before*
the prepayment deduction (the claim said the already-reduced balance); its
row records remaining `remaining − amount − principal`, and the balance is
reduced again by the regular principal. -/
theorem C4_prepay_then_regular (p : Params) (curDate : Date) (curRate : ℚ) (month : ℕ)
    (st : LoopSt) (pre : Prepay) (intr prin : ℚ)
    (hy : curDate.year = pre.pdate.year) (hm : curDate.month = pre.pdate.month)
    (hflag : st.processedFlag = false)
    (hamt : 0 < pre.amount) (hrem : 0 < st.remaining)
    (hord : pre.pdate.toOrd < curDate.toOrd)
    (hcomp : computeRegular p curRate st.remaining = .ok (intr, prin)) :
    max (pre.pdate.toOrd - curDate.toOrd) 1 = 1
    ∧ processOne p curDate curRate month st pre = .ok
      { schedule := st.schedule ++
          [{ period := month, rdate := pre.pdate, kind := .prepay,
             principal := pre.amount,
             interest := st.remaining * curRate / 100 / 365 * 1,
             remaining := st.remaining - pre.amount },
           { period := month, rdate := curDate, kind := .regular,
             principal := prin,
             interest := intr,
             remaining := st.remaining - pre.amount - prin }],
        remaining := st.remaining - pre.amount - prin,
        processedFlag := true } := by
  have hmax : max (pre.pdate.toOrd - curDate.toOrd) 1 = 1 := by
    rw [max_eq_right]
    omega
  refine ⟨hmax, ?_⟩
  unfold processOne
  rw [if_pos ⟨hy, hm⟩, hflag]
  simp only [Bool.false_eq_true, if_false]
  rw [if_pos ⟨hamt, hrem⟩, hcomp]
  dsimp only [Except.bind]
  rw [if_pos hord]
  have hdays : (if pre.pdate.toOrd - curDate.toOrd ≤ 1 then (1 : ℤ)
      else pre.pdate.toOrd - curDate.toOrd) = 1 := by
    rw [if_pos]
    omega
  rw [hdays]
  simp only [mkPrepayRow, mkRegularRow, Int.cast_one]

/-- Witness for C3: the equal-date prepayment of 50 against balance 1000 at
rate 12% (context of `exA`, period 2) produces the Regular-then-Prepayment
pair with the retroactive edit, one day's worth of prepayment interest
108/365, and final balance 850. -/
theorem C3_regular_then_prepay_witness :
    processOne exA ⟨2022, 10, 12⟩ 12 2 ⟨[], 1000, false⟩ ⟨⟨2022, 10, 12⟩, 50⟩ = .ok
      { schedule :=
          [{ period := 2, rdate := ⟨2022, 10, 12⟩, kind := .regular,
             principal := 50, interest := 10, remaining := 900,
             total? := some 60, cumP? := some 300, cumI? := some (108/365) },
           { period := 2, rdate := ⟨2022, 10, 12⟩, kind := .prepay,
             principal := 50, interest := 108/365, remaining := 850 }],
        remaining := 850, processedFlag := true } :=
  (C3_regular_then_prepay exA ⟨2022, 10, 12⟩ 12 2 ⟨[], 1000, false⟩ ⟨⟨2022, 10, 12⟩, 50⟩
    10 100 rfl rfl rfl (by norm_num) (by norm_num) (by decide) (by decide)).trans (by decide)

/-- Witness for C4: the prepayment of 50 dated 2022-10-05, strictly before
the payment date 2022-10-12 (context of `exA`, balance 1000, rate 12%),
produces the Prepayment-then-Regular pair, with the day factor clamped to 1
and the regular interest 10 computed on the un-reduced balance 1000. -/
theorem C4_prepay_then_regular_witness :
    max (Date.toOrd ⟨2022, 10, 5⟩ - Date.toOrd ⟨2022, 10, 12⟩) 1 = 1
    ∧ processOne exA ⟨2022, 10, 12⟩ 12 2 ⟨[], 1000, false⟩ ⟨⟨2022, 10, 5⟩, 50⟩ = .ok
      { schedule :=
          [{ period := 2, rdate := ⟨2022, 10, 5⟩, kind := .prepay,
             principal := 50, interest := 120/365, remaining := 950 },
           { period := 2, rdate := ⟨2022, 10, 12⟩, kind := .regular,
             principal := 100, interest := 10, remaining := 850 }],
        remaining := 850, processedFlag := true } :=
  ⟨(C4_prepay_then_regular exA ⟨2022, 10, 12⟩ 12 2 ⟨[], 1000, false⟩ ⟨⟨2022, 10, 5⟩, 50⟩
      10 100 rfl rfl rfl (by norm_num) (by norm_num) (by decide) (by decide)).1,
    (C4_prepay_then_regular exA ⟨2022, 10, 12⟩ 12 2 ⟨[], 1000, false⟩ ⟨⟨2022, 10, 5⟩, 50⟩
      10 100 rfl rfl rfl (by norm_num) (by norm_num) (by decide) (by decide)).2.trans
      (by decide)⟩

theorem computeRegular_ok {p : Params}
    (ht : p.repaymentType = "equal_principal" ∨ p.repaymentType = "equal_payment")
    (curRate bal : ℚ) : ∃ pay, computeRegular p curRate bal = .ok pay := by
  unfold computeRegular
  rcases ht with ht | ht <;> rw [ht] <;> simp

theorem computeRegular_error {p : Params}
    (ht : ¬ (p.repaymentType = "equal_principal" ∨ p.repaymentType = "equal_payment"))
    (curRate bal : ℚ) : computeRegular p curRate bal = .error "unsupported repayment type" := by
  push_neg at ht
  unfold computeRegular
  rw [if_neg ht.1, if_neg ht.2]

theorem processOne_ok {p : Params}
    (ht : p.repaymentType = "equal_principal" ∨ p.repaymentType = "equal_payment")
    (curDate : Date) (curRate : ℚ) (month : ℕ) (st : LoopSt) (pre : Prepay) :
    ∃ st', processOne p curDate curRate month st pre = .ok st' := by
  obtain ⟨pay, hcr⟩ := computeRegular_ok ht curRate st.remaining
  unfold processOne
  split_ifs <;>
    first
      | exact ⟨st, rfl⟩
      | exact ⟨_, rfl⟩
      | (rw [hcr]
         dsimp only [Except.bind]
         exact ⟨_, rfl⟩)

theorem processList_ok {p : Params}
    (ht : p.repaymentType = "equal_principal" ∨ p.repaymentType = "equal_payment")
    (curDate : Date) (curRate : ℚ) (month : ℕ) (l : List Prepay) :
    ∀ st : LoopSt, ∃ st', processList p curDate curRate month st l = .ok st' := by
  induction l with
  | nil => exact fun st => ⟨st, rfl⟩
  | cons pre rest ih =>
    intro st
    obtain ⟨st1, h1⟩ := processOne_ok ht curDate curRate month st pre
    obtain ⟨st2, h2⟩ := ih st1
    refine ⟨st2, ?_⟩
    unfold processList
    rw [h1]
    dsimp only [Except.bind]
    exact h2

theorem stepMonth_ok {p : Params}
    (ht : p.repaymentType = "equal_principal" ∨ p.repaymentType = "equal_payment")
    (s : SimState) : ∃ s', stepMonth p s = .ok s' := by
  unfold stepMonth
  dsimp only
  obtain ⟨st0, h0⟩ := processList_ok ht s.currentDate
    (resolveRate p.rateChanges s.currentRate s.currentDate) s.month
    (s.prepays.filter fun it => decide ((monthStart s.currentDate).toOrd ≤ it.pdate.toOrd))
    ⟨s.schedule, s.remaining, false⟩
  rw [h0]
  dsimp only [Except.bind]
  split_ifs with h1 h2
  · exact ⟨_, rfl⟩
  · obtain ⟨pay, hcr⟩ := computeRegular_ok ht
      (resolveRate p.rateChanges s.currentRate s.currentDate) st0.remaining
    rw [hcr]
    dsimp only [Except.map]
    exact ⟨_, rfl⟩
  · dsimp only [Except.map]
    exact ⟨_, rfl⟩

theorem simulate_ok {p : Params}
    (ht : p.repaymentType = "equal_principal" ∨ p.repaymentType = "equal_payment")
    (fuel : ℕ) : ∀ s : SimState, ∃ s', simulate p fuel s = .ok s' := by
  induction fuel with
  | zero => exact fun s => ⟨s, rfl⟩
  | succ n ih =>
    intro s
    unfold simulate
    split_ifs with h1
    · obtain ⟨s1, hs1⟩ := stepMonth_ok ht s
      obtain ⟨s2, hs2⟩ := ih s1
      refine ⟨s2, ?_⟩
      rw [hs1]
      dsimp only [Except.bind]
      exact hs2
    · exact ⟨s, rfl⟩

theorem processOne_error {p : Params}
    (ht : ¬ (p.repaymentType = "equal_principal" ∨ p.repaymentType = "equal_payment"))
    (curDate : Date) (curRate : ℚ) (month : ℕ) {st : LoopSt} {pre : Prepay}
    (hflag : st.processedFlag = false) (hrem : 0 < st.remaining) (hamt : 0 < pre.amount) :
    processOne p curDate curRate month st pre = .error "unsupported repayment type" := by
  have hcr := computeRegular_error ht curRate st.remaining
  unfold processOne
  rw [hflag]
  simp only [Bool.false_eq_true, if_false]
  by_cases h1 : curDate.year = pre.pdate.year ∧ curDate.month = pre.pdate.month
  · rw [if_pos h1, if_pos ⟨hamt, hrem⟩, hcr]
    rfl
  · rw [if_neg h1, hcr]
    rfl

theorem stepMonth_error {p : Params}
    (ht : ¬ (p.repaymentType = "equal_principal" ∨ p.repaymentType = "equal_payment"))
    {s : SimState} (hrem : 0 < s.remaining) (hamts : ∀ x ∈ s.prepays, 0 < x.amount) :
    stepMonth p s = .error "unsupported repayment type" := by
  unfold stepMonth
  dsimp only
  set rate := resolveRate p.rateChanges s.currentRate s.currentDate with hrate
  cases hpend : s.prepays.filter
      (fun it => decide ((monthStart s.currentDate).toOrd ≤ it.pdate.toOrd)) with
  | nil =>
    dsimp only [processList, Except.bind]
    rw [if_neg (by simp), if_pos (show (List.isEmpty ([] : List Prepay)) = true from rfl)]
    rw [computeRegular_error ht rate s.remaining]
    rfl
  | cons pre rest =>
    have hamt : 0 < pre.amount := by
      have hmem : pre ∈ s.prepays.filter
          (fun it => decide ((monthStart s.currentDate).toOrd ≤ it.pdate.toOrd)) := by
        rw [hpend]
        exact List.mem_cons_self ..
      exact hamts pre (List.mem_of_mem_filter hmem)
    unfold processList
    rw [processOne_error ht s.currentDate rate s.month rfl hrem hamt]
    rfl

/-- Claim C9: given a positive principal, a positive term (so the first
period is actually simulated) and a well-typed prepayment list (positive
amounts, per the data model), the generator fails with the
unsupported-method error — returning no partial schedule, as the `Except`
result carries only the error — if and only if the repayment-method tag is
neither `equal_principal` nor `equal_payment`; in particular the two
accepted methods never raise it. -/
theorem C9_unsupported_method (p : Params)
    (hloan : 0 < p.loanAmount) (hterm : 1 ≤ p.totalMonths)
    (hamts : ∀ x ∈ p.prepays, 0 < x.amount) :
    (∃ e, generate p = .error e) ↔
      ¬ (p.repaymentType = "equal_principal" ∨ p.repaymentType = "equal_payment") := by
  constructor
  · rintro ⟨e, he⟩ ht
    obtain ⟨s', hs'⟩ := simulate_ok ht p.totalMonths (initState p)
    unfold generate runSim at he
    rw [hs'] at he
    cases he
  · intro ht
    refine ⟨"unsupported repayment type", ?_⟩
    have hamts' : ∀ x ∈ (initState p).prepays, 0 < x.amount := by
      intro x hx
      exact hamts x ((mem_sortKeyed _ x p.prepays).mp hx)
    have hstep := stepMonth_error ht (s := initState p) hloan hamts'
    unfold generate runSim
    obtain ⟨f, hf⟩ : ∃ f, p.totalMonths = f + 1 := ⟨p.totalMonths - 1, by omega⟩
    rw [hf]
    unfold simulate
    have hm1 : (initState p).month = 1 := rfl
    have hr1 : (initState p).remaining = p.loanAmount := rfl
    rw [if_pos ⟨by rwa [hr1], by rw [hm1]; omega⟩, hstep]
    rfl

/-- Witness for C9: the loan `exBad` (tag "monthly") satisfies the
hypotheses and the generator fails; the converse direction is exercised by
every `generate` evaluation in this file that returns `.ok`. -/
theorem C9_unsupported_method_witness :
    (0 < exBad.loanAmount ∧ 1 ≤ exBad.totalMonths ∧ ∀ x ∈ exBad.prepays, 0 < x.amount)
    ∧ (∃ e, generate exBad = .error e) :=
  ⟨⟨by decide, by decide, by decide⟩,
    (C9_unsupported_method exBad (by decide) (by decide) (by decide)).mpr (by decide)⟩

theorem sumPrin_cons (r : Row) (rs : List Row) (n : ℕ) :
    sumPrin (r :: rs) (n + 1) = r.principal + sumPrin rs n := by
  simp [sumPrin]

theorem sumInt_cons (r : Row) (rs : List Row) (n : ℕ) :
    sumInt (r :: rs) (n + 1) = r.interest + sumInt rs n := by
  simp [sumInt]

theorem sumPrin_succ (l : List Row) (i : ℕ) (h : i < l.length) :
    sumPrin l (i + 1) = sumPrin l i + (l.get ⟨i, h⟩).principal := by
  unfold sumPrin
  rw [List.map_take, List.map_take, List.sum_take_succ (l.map Row.principal) i (by simpa using h)]
  congr 1
  simp [List.getElem_map]

theorem buildOut_length (loan : ℚ) (l : List Row) :
    ∀ sp si : ℚ, (buildOut loan sp si l).length = l.length := by
  induction l with
  | nil => intro sp si; rfl
  | cons r rs ih =>
    intro sp si
    simp only [buildOut, List.length_cons, ih]

theorem buildOut_get (loan : ℚ) (l : List Row) :
    ∀ (sp si : ℚ) (i : ℕ) (hi : i < l.length) (hb : i < (buildOut loan sp si l).length),
      (buildOut loan sp si l).get ⟨i, hb⟩ =
        { period := (l.get ⟨i, hi⟩).period,
          rdate := (l.get ⟨i, hi⟩).rdate,
          kind := (l.get ⟨i, hi⟩).kind,
          principal := round2 (l.get ⟨i, hi⟩).principal,
          interest := round2 (l.get ⟨i, hi⟩).interest,
          remaining := round2 (round6 (loan - round6 (sp + sumPrin l (i + 1)))),
          cumP := round2 (round6 (sp + sumPrin l (i + 1))),
          cumI := round2 (round6 (si + sumInt l (i + 1))),
          total := round2 ((l.get ⟨i, hi⟩).principal + (l.get ⟨i, hi⟩).interest) } := by
  induction l with
  | nil =>
    intro sp si i hi
    exact absurd hi (by simp)
  | cons r rs ih =>
    intro sp si i hi hb
    cases i with
    | zero =>
      have e1 : sp + sumPrin (r :: rs) 1 = sp + r.principal := by
        simp [sumPrin]
      have e2 : si + sumInt (r :: rs) 1 = si + r.interest := by
        simp [sumInt]
      rw [e1, e2]
      rfl
    | succ j =>
      have hj : j < rs.length := by simpa using hi
      have hbj : j < (buildOut loan (sp + r.principal) (si + r.interest) rs).length := by
        rw [buildOut_length]
        exact hj
      have hstep : (buildOut loan sp si (r :: rs)).get ⟨j + 1, hb⟩
          = (buildOut loan (sp + r.principal) (si + r.interest) rs).get ⟨j, hbj⟩ := rfl
      rw [hstep, ih (sp + r.principal) (si + r.interest) j hj hbj]
      have e1 : sp + r.principal + sumPrin rs (j + 1) = sp + sumPrin (r :: rs) (j + 1 + 1) := by
        rw [sumPrin_cons]
        ring
      have e2 : si + r.interest + sumInt rs (j + 1) = si + sumInt (r :: rs) (j + 1 + 1) := by
        rw [sumInt_cons]
        ring
      rw [e1, e2]
      rfl

theorem roundTo_mul_pow (n : ℕ) (x : ℚ) :
    roundTo n x * 10 ^ n = ((rnd (x * 10 ^ n) : ℤ) : ℚ) := by
  unfold roundTo
  have hp : (10 : ℚ) ^ n ≠ 0 := by positivity
  field_simp

theorem generate_ok_elim {p : Params} {s : SimState} {rows : List FinalRow}
    (hs : runSim p = .ok s) (hg : generate p = .ok rows) :
    rows = buildOut p.loanAmount 0 0 (finalizedRows p s) := by
  unfold generate at hg
  rw [hs] at hg
  dsimp only [Except.map] at hg
  cases hg
  rfl

/-- Claim C10 (implicit): the finalizer recomputes the remaining-balance
column of every output row — not just the last one — as the loan principal
minus that row's cumulative principal (the running sum of the post-fixup
principal column, rounded to 6 decimals before the final 2-decimal display
rounding), discarding the per-row balances recorded during simulation: the
output balance is a function of the principal column alone.  When the loan
amount is itself a 2-decimal quantity, the inner 6-decimal rounding is the
identity, so every output row satisfies
`remaining = round2(loan − cumulative principal)` with the cumulative
principal at 6-decimal precision. -/
theorem C10_remaining_from_cumsum (p : Params) (s : SimState) (hs : runSim p = .ok s)
    (rows : List FinalRow) (hg : generate p = .ok rows)
    (i : ℕ) (hi : i < rows.length) (hf : i < (finalizedRows p s).length) :
    (rows.get ⟨i, hi⟩).remaining
        = round2 (round6 (p.loanAmount - round6 (sumPrin (finalizedRows p s) (i + 1))))
    ∧ (rows.get ⟨i, hi⟩).cumP = round2 (round6 (sumPrin (finalizedRows p s) (i + 1)))
    ∧ ((p.loanAmount * 100).den = 1 →
        (rows.get ⟨i, hi⟩).remaining
          = round2 (p.loanAmount - round6 (sumPrin (finalizedRows p s) (i + 1)))) := by
  have hrows := generate_ok_elim hs hg
  subst hrows
  have hget := buildOut_get p.loanAmount (finalizedRows p s) 0 0 i hf hi
  rw [hget]
  dsimp only
  rw [zero_add]
  refine ⟨rfl, rfl, fun hden => ?_⟩
  have hz : (p.loanAmount - round6 (sumPrin (finalizedRows p s) (i + 1))) * 10 ^ 6
      = (((p.loanAmount * 100).num * 10 ^ 4
          - rnd (sumPrin (finalizedRows p s) (i + 1) * 10 ^ 6) : ℤ) : ℚ) := by
    have hloan : (((p.loanAmount * 100).num : ℤ) : ℚ) = p.loanAmount * 100 := by
      have := (Rat.den_eq_one_iff (p.loanAmount * 100)).mp hden
      exact_mod_cast this
    have hc6 := roundTo_mul_pow 6 (sumPrin (finalizedRows p s) (i + 1))
    unfold round6
    push_cast
    rw [hloan]
    nlinarith [hc6]
  rw [show round6 (p.loanAmount - round6 (sumPrin (finalizedRows p s) (i + 1)))
      = p.loanAmount - round6 (sumPrin (finalizedRows p s) (i + 1)) from roundTo_int 6 hz]

/-- Claim C2 (amended): in the finalized output, the remaining balance does
not increase at any row whose underlying (pre-display-rounding) principal
is non-negative, and any row whose 6-decimal cumulative principal is at
most the loan amount has non-negative remaining balance.  As stated the
claim is false: the retroactive prepayment edit and the final-row
adjustment can make a row's principal negative, in which case the balance
increases (see the counterexample), and a prepayment exceeding the
outstanding balance drives it negative. -/
theorem C2_balance_monotonicity (p : Params) (s : SimState) (hs : runSim p = .ok s)
    (rows : List FinalRow) (hg : generate p = .ok rows) (i : ℕ)
    (hi : i < rows.length) (hf : i < (finalizedRows p s).length) :
    (∀ (hi1 : i + 1 < rows.length) (hf1 : i + 1 < (finalizedRows p s).length),
        0 ≤ ((finalizedRows p s).get ⟨i + 1, hf1⟩).principal →
        (rows.get ⟨i + 1, hi1⟩).remaining ≤ (rows.get ⟨i, hi⟩).remaining)
    ∧ (round6 (sumPrin (finalizedRows p s) (i + 1)) ≤ p.loanAmount →
        0 ≤ (rows.get ⟨i, hi⟩).remaining) := by
  have hrows := generate_ok_elim hs hg
  subst hrows
  have hget := buildOut_get p.loanAmount (finalizedRows p s) 0 0 i hf hi
  constructor
  · intro hi1 hf1 hpos
    have hget1 := buildOut_get p.loanAmount (finalizedRows p s) 0 0 (i + 1) hf1 hi1
    rw [hget, hget1]
    dsimp only
    rw [zero_add, zero_add]
    have hsum : sumPrin (finalizedRows p s) (i + 1) ≤ sumPrin (finalizedRows p s) (i + 1 + 1) := by
      rw [sumPrin_succ (finalizedRows p s) (i + 1) hf1]
      linarith
    exact roundTo_mono 2 (roundTo_mono 6
      (sub_le_sub_left (roundTo_mono 6 hsum) p.loanAmount))
  · intro hle
    rw [hget]
    dsimp only
    rw [zero_add]
    have h0 : (0 : ℚ) ≤ p.loanAmount - round6 (sumPrin (finalizedRows p s) (i + 1)) := by
      linarith
    exact roundTo_nonneg 2 (roundTo_nonneg 6 h0)

/-- Witness for C10: in the `exW` run, the first output row's remaining
balance is `round2(loan − round6(cumulative principal))`, with the loan a
2-decimal quantity. -/
theorem C10_remaining_from_cumsum_witness :
    runSim exW = .ok sW ∧ generate exW = .ok rowsW ∧ (exW.loanAmount * 100).den = 1
    ∧ (rowsW.get ⟨0, by decide⟩).remaining
        = round2 (exW.loanAmount - round6 (sumPrin (finalizedRows exW sW) 1)) :=
  ⟨by decide, by decide, by decide,
    (C10_remaining_from_cumsum exW sW (by decide) rowsW (by decide) 0 (by decide)
      (by decide)).2.2 (by decide)⟩

/-- Witness for C2 (amended): in the `exW` run the second raw row's
principal is non-negative, and the displayed remaining balance indeed does
not increase from row 0 to row 1. -/
theorem C2_balance_monotonicity_witness :
    runSim exW = .ok sW ∧ generate exW = .ok rowsW
    ∧ 0 ≤ ((finalizedRows exW sW).get ⟨1, by decide⟩).principal
    ∧ (rowsW.get ⟨1, by decide⟩).remaining ≤ (rowsW.get ⟨0, by decide⟩).remaining :=
  ⟨by decide, by decide, by decide,
    (C2_balance_monotonicity exW sW (by decide) rowsW (by decide) 0 (by decide)
      (by decide)).1 (by decide) (by decide) (by decide)⟩

theorem computeRegular_eqpay (p : Params) (c bal : ℚ)
    (h : p.repaymentType = "equal_payment") :
    computeRegular p c bal =
      .ok (bal * (p.initialRate / 100 / 12),
        p.loanAmount * ((p.initialRate / 100 / 12)
            * qpow (1 + p.initialRate / 100 / 12) p.totalMonths)
            / (qpow (1 + p.initialRate / 100 / 12) p.totalMonths - 1)
          - bal * (p.initialRate / 100 / 12)) := by
  unfold computeRegular
  rw [h, if_neg (by decide), if_pos rfl]

theorem computeRegular_update (p : Params) (rc : List (Date × ℚ)) (c c' bal : ℚ)
    (h : p.repaymentType = "equal_payment") :
    computeRegular { p with rateChanges := rc } c' bal = computeRegular p c bal := by
  rw [computeRegular_eqpay p c bal h,
    computeRegular_eqpay { p with rateChanges := rc } c' bal h]
  rfl

theorem processOne_rate_indep {p : Params} (rc : List (Date × ℚ)) (c c' : ℚ)
    (curDate : Date) (month : ℕ) (pre : Prepay) {st st' : LoopSt}
    (h : p.repaymentType = "equal_payment") (hst : LReq st st') :
    ERel LReq (processOne p curDate c month st pre)
      (processOne { p with rateChanges := rc } curDate c' month st' pre) := by
  obtain ⟨sch, rem, fl⟩ := st
  obtain ⟨sch', rem', fl'⟩ := st'
  obtain ⟨hsch, hrem, hflag⟩ := hst
  dsimp only at hrem hflag
  subst hrem
  subst hflag
  unfold processOne
  dsimp only
  by_cases hm : curDate.year = pre.pdate.year ∧ curDate.month = pre.pdate.month
  · rw [if_pos hm, if_pos hm]
    by_cases hf : fl = true
    · rw [if_pos hf, if_pos hf]
      exact ⟨hsch, rfl, rfl⟩
    · rw [if_neg hf, if_neg hf]
      by_cases ha : 0 < pre.amount ∧ 0 < rem
      · rw [if_pos ha, if_pos ha]
        have hcu := computeRegular_update p rc c c' rem h
        cases hcr : computeRegular p c rem with
        | error e =>
          rw [hcr] at hcu
          rw [hcu]
          exact rfl
        | ok pay =>
          rw [hcr] at hcu
          rw [hcu]
          dsimp only [Except.bind]
          by_cases hlt : pre.pdate.toOrd < curDate.toOrd
          · rw [if_pos hlt, if_pos hlt]
            refine ⟨List.rel_append hsch ?_, rfl, rfl⟩
            refine List.Forall₂.cons ⟨rfl, rfl, rfl, rfl, rfl, fun hk => nomatch hk⟩ ?_
            exact List.Forall₂.cons ⟨rfl, rfl, rfl, rfl, rfl, fun _ => rfl⟩ List.Forall₂.nil
          · rw [if_neg hlt, if_neg hlt]
            refine ⟨List.rel_append hsch ?_, rfl, rfl⟩
            refine List.Forall₂.cons ⟨rfl, rfl, rfl, rfl, rfl, fun _ => rfl⟩ ?_
            exact List.Forall₂.cons ⟨rfl, rfl, rfl, rfl, rfl, fun hk => nomatch hk⟩ List.Forall₂.nil
      · rw [if_neg ha, if_neg ha]
        exact ⟨hsch, rfl, rfl⟩
  · rw [if_neg hm, if_neg hm]
    by_cases hf : fl = true
    · rw [if_pos hf, if_pos hf]
      exact ⟨hsch, rfl, rfl⟩
    · rw [if_neg hf, if_neg hf]
      have hcu := computeRegular_update p rc c c' rem h
      cases hcr : computeRegular p c rem with
      | error e =>
        rw [hcr] at hcu
        rw [hcu]
        exact rfl
      | ok pay =>
        rw [hcr] at hcu
        rw [hcu]
        dsimp only [Except.bind]
        exact ⟨List.rel_append hsch
          (List.Forall₂.cons ⟨rfl, rfl, rfl, rfl, rfl, fun _ => rfl⟩ List.Forall₂.nil),
          rfl, rfl⟩

theorem processList_rate_indep {p : Params} (rc : List (Date × ℚ)) (c c' : ℚ)
    (curDate : Date) (month : ℕ) (h : p.repaymentType = "equal_payment") :
    ∀ (l : List Prepay) (st st' : LoopSt), LReq st st' →
      ERel LReq (processList p curDate c month st l)
        (processList { p with rateChanges := rc } curDate c' month st' l) := by
  intro l
  induction l with
  | nil =>
    intro st st' hst
    exact hst
  | cons pre rest ih =>
    intro st st' hst
    have h1 := processOne_rate_indep rc c c' curDate month pre h hst
    rw [processList, processList]
    cases hpo : processOne p curDate c month st pre with
    | error e =>
      cases hpo2 : processOne { p with rateChanges := rc } curDate c' month st' pre with
      | error f =>
        rw [hpo, hpo2] at h1
        dsimp only [Except.bind]
        exact h1
      | ok t2 =>
        rw [hpo, hpo2] at h1
        exact False.elim h1
    | ok t =>
      cases hpo2 : processOne { p with rateChanges := rc } curDate c' month st' pre with
      | error f =>
        rw [hpo, hpo2] at h1
        exact False.elim h1
      | ok t2 =>
        rw [hpo, hpo2] at h1
        dsimp only [Except.bind]
        exact ih t t2 h1

theorem stepMonth_rate_indep {p : Params} (rc : List (Date × ℚ))
    (h : p.repaymentType = "equal_payment") {s s' : SimState} (hs : SimRel s s') :
    ERel SimRel (stepMonth p s) (stepMonth { p with rateChanges := rc } s') := by
  obtain ⟨sch, rem, pr, cd, mo, cr⟩ := s
  obtain ⟨sch', rem', pr', cd', mo', cr'⟩ := s'
  obtain ⟨hsch, hrem, hpr, hcd, hmo⟩ := hs
  dsimp only at hsch hrem hpr hcd hmo
  subst hrem
  subst hpr
  subst hcd
  subst hmo
  unfold stepMonth
  dsimp only
  have hpl := processList_rate_indep rc (resolveRate p.rateChanges cr cd)
    (resolveRate rc cr' cd) cd mo h
    (pr.filter fun it => decide ((monthStart cd).toOrd ≤ it.pdate.toOrd))
    ⟨sch, rem, false⟩ ⟨sch', rem, false⟩ ⟨hsch, rfl, rfl⟩
  cases hpl0 : processList p cd (resolveRate p.rateChanges cr cd) mo ⟨sch, rem, false⟩
      (pr.filter fun it => decide ((monthStart cd).toOrd ≤ it.pdate.toOrd)) with
  | error e =>
    cases hpl1 : processList { p with rateChanges := rc } cd (resolveRate rc cr' cd) mo
        ⟨sch', rem, false⟩
        (pr.filter fun it => decide ((monthStart cd).toOrd ≤ it.pdate.toOrd)) with
    | error f =>
      rw [hpl0, hpl1] at hpl
      dsimp only [Except.bind]
      exact hpl
    | ok st1 =>
      rw [hpl0, hpl1] at hpl
      exact False.elim hpl
  | ok st0 =>
    cases hpl1 : processList { p with rateChanges := rc } cd (resolveRate rc cr' cd) mo
        ⟨sch', rem, false⟩
        (pr.filter fun it => decide ((monthStart cd).toOrd ≤ it.pdate.toOrd)) with
    | error f =>
      rw [hpl0, hpl1] at hpl
      exact False.elim hpl
    | ok st1 =>
      rw [hpl0, hpl1] at hpl
      dsimp only [Except.bind]
      obtain ⟨sch0, rem0, fl0⟩ := st0
      obtain ⟨sch1, rem1, fl1⟩ := st1
      obtain ⟨hsch0, hrem0, hfl0⟩ := hpl
      dsimp only at hsch0 hrem0 hfl0
      subst hrem0
      subst hfl0
      split_ifs with h1 h2
      · exact ⟨hsch, rfl, rfl, rfl, rfl⟩
      · have hcu := computeRegular_update p rc (resolveRate p.rateChanges cr cd)
          (resolveRate rc cr' cd) rem0 h
        cases hcr : computeRegular p (resolveRate p.rateChanges cr cd) rem0 with
        | error e =>
          rw [hcr] at hcu
          rw [hcu]
          exact rfl
        | ok pay =>
          rw [hcr] at hcu
          rw [hcu]
          dsimp only [Except.map]
          split_ifs <;>
            exact ⟨List.rel_append hsch0
              (List.Forall₂.cons ⟨rfl, rfl, rfl, rfl, rfl, fun _ => rfl⟩ List.Forall₂.nil),
              rfl, rfl, rfl, rfl⟩
      · dsimp only [Except.map]
        split_ifs <;> exact ⟨hsch0, rfl, rfl, rfl, rfl⟩

theorem simulate_rate_indep {p : Params} (rc : List (Date × ℚ))
    (h : p.repaymentType = "equal_payment") :
    ∀ (fuel : ℕ) (s s' : SimState), SimRel s s' →
      ERel SimRel (simulate p fuel s) (simulate { p with rateChanges := rc } fuel s') := by
  intro fuel
  induction fuel with
  | zero =>
    intro s s' hs
    exact hs
  | succ n ih =>
    intro s s' hs
    obtain ⟨hsch, hrem, hpr, hcd, hmo⟩ := hs
    have hs2 : SimRel s s' := ⟨hsch, hrem, hpr, hcd, hmo⟩
    have hcond : (0 < s.remaining ∧ s.month ≤ p.totalMonths) ↔
        (0 < s'.remaining ∧ s'.month ≤ Params.totalMonths { p with rateChanges := rc }) := by
      rw [hrem, hmo]
      exact Iff.rfl
    rw [simulate, simulate]
    by_cases h1 : 0 < s.remaining ∧ s.month ≤ p.totalMonths
    · rw [if_pos h1, if_pos (hcond.mp h1)]
      have hst := stepMonth_rate_indep rc h hs2
      cases hsm : stepMonth p s with
      | error e =>
        cases hsm2 : stepMonth { p with rateChanges := rc } s' with
        | error f =>
          rw [hsm, hsm2] at hst
          dsimp only [Except.bind]
          exact hst
        | ok t2 =>
          rw [hsm, hsm2] at hst
          exact False.elim hst
      | ok t =>
        cases hsm2 : stepMonth { p with rateChanges := rc } s' with
        | error f =>
          rw [hsm, hsm2] at hst
          exact False.elim hst
        | ok t2 =>
          rw [hsm, hsm2] at hst
          dsimp only [Except.bind]
          exact ih t t2 hst
    · rw [if_neg h1, if_neg (fun hx => h1 (hcond.mpr hx))]
      exact hs2

theorem cumulPass_req {l l' : List Row} (h : List.Forall₂ Req l l') :
    ∀ (tp ti tq tj : ℚ), List.Forall₂ Req (cumulPass tp ti l) (cumulPass tq tj l') := by
  induction h with
  | nil =>
    intro _ _ _ _
    exact List.Forall₂.nil
  | cons hab ht ih =>
    intro tp ti tq tj
    rw [cumulPass, cumulPass]
    obtain ⟨k1, k2, k3, k4, k5, k6⟩ := hab
    exact List.Forall₂.cons ⟨k1, k2, k3, k4, k5, fun hk => k6 hk⟩ (ih _ _ _ _)

theorem forall2_dropLast {l l' : List Row} (h : List.Forall₂ Req l l') :
    List.Forall₂ Req l.dropLast l'.dropLast := by
  rw [List.dropLast_eq_take, List.dropLast_eq_take, h.length_eq]
  exact List.forall₂_take _ h

theorem forall2_getLast {l l' : List Row} (h : List.Forall₂ Req l l') :
    (l.getLast? = none ∧ l'.getLast? = none) ∨
      ∃ a b, l.getLast? = some a ∧ l'.getLast? = some b ∧ Req a b := by
  have hr : List.Forall₂ Req l.reverse l'.reverse := List.rel_reverse h
  rw [List.getLast?_eq_head?_reverse, List.getLast?_eq_head?_reverse]
  cases hl : l.reverse with
  | nil =>
    rw [hl] at hr
    rw [List.forall₂_nil_left_iff.mp hr]
    exact Or.inl ⟨rfl, rfl⟩
  | cons a t =>
    rw [hl] at hr
    obtain ⟨b, u, hab, _, hu⟩ := List.forall₂_cons_left_iff.mp hr
    rw [hu]
    exact Or.inr ⟨a, b, rfl, rfl, hab⟩

theorem fixLast_req {l l' : List Row} (h : List.Forall₂ Req l l') (loan loan2 : ℚ) :
    List.Forall₂ Req (fixLast loan l) (fixLast loan2 l') := by
  unfold fixLast
  rcases forall2_getLast h with ⟨h1, h2⟩ | ⟨a, b, ha, hb, hab⟩
  · rw [h1, h2]
    exact h
  · rw [ha, hb]
    dsimp only
    obtain ⟨k1, k2, k3, k4, k5, k6⟩ := hab
    rw [k5]
    by_cases hc : 1/100000 < qabs b.remaining
    · rw [if_pos hc, if_pos hc]
      refine List.rel_append (forall2_dropLast h)
        (List.Forall₂.cons ⟨k1, k2, k3, ?_, rfl, fun hk => k6 hk⟩ List.Forall₂.nil)
      dsimp only
      rw [k4]
    · rw [if_neg hc, if_neg hc]
      exact h

theorem buildOut_req {l l' : List Row} (h : List.Forall₂ Req l l') :
    ∀ (loan sp si sj : ℚ),
      (buildOut loan sp si l).map rateFreeView = (buildOut loan sp sj l').map rateFreeView := by
  induction h with
  | nil =>
    intro _ _ _ _
    rfl
  | @cons a b t t2 hab ht ih =>
    intro loan sp si sj
    obtain ⟨k1, k2, k3, k4, k5, k6⟩ := hab
    rw [buildOut, buildOut, List.map_cons, List.map_cons]
    unfold rateFreeView
    dsimp only
    rw [k1, k2, k3, k4]
    cases hk : b.kind with
    | regular =>
      rw [k6 (k3.trans hk)]
      exact congrArg _ (ih loan (sp + b.principal) (si + b.interest) (sj + b.interest))
    | prepay =>
      dsimp only
      exact congrArg _ (ih loan (sp + b.principal) (si + a.interest) (sj + b.interest))

theorem generate_rate_indep (p : Params) (rc : List (Date × ℚ))
    (h : p.repaymentType = "equal_payment") :
    (generate p).map (List.map rateFreeView)
      = (generate { p with rateChanges := rc }).map (List.map rateFreeView) := by
  have h0 : SimRel (initState p) (initState { p with rateChanges := rc }) :=
    ⟨List.Forall₂.nil, rfl, rfl, rfl, rfl⟩
  have hsim := simulate_rate_indep rc h p.totalMonths (initState p)
    (initState { p with rateChanges := rc }) h0
  have hts : Params.totalMonths { p with rateChanges := rc } = p.totalMonths := rfl
  unfold generate runSim
  rw [hts]
  cases hs1 : simulate p p.totalMonths (initState p) with
  | error e =>
    cases hs2 : simulate { p with rateChanges := rc } p.totalMonths
        (initState { p with rateChanges := rc }) with
    | error f =>
      rw [hs1, hs2] at hsim
      dsimp only [Except.map]
      exact congrArg Except.error (hsim : e = f)
    | ok s2 =>
      rw [hs1, hs2] at hsim
      exact False.elim hsim
  | ok s1 =>
    cases hs2 : simulate { p with rateChanges := rc } p.totalMonths
        (initState { p with rateChanges := rc }) with
    | error f =>
      rw [hs1, hs2] at hsim
      exact False.elim hsim
    | ok s2 =>
      rw [hs1, hs2] at hsim
      dsimp only [Except.map]
      obtain ⟨hq, _, _, _, _⟩ := hsim
      have hfin : List.Forall₂ Req (finalizedRows p s1)
          (finalizedRows { p with rateChanges := rc } s2) :=
        fixLast_req (cumulPass_req hq 0 0 0 0) p.loanAmount
          (Params.loanAmount { p with rateChanges := rc })
      exact congrArg Except.ok (buildOut_req hfin p.loanAmount 0 0 0)

/-- Claim C5 (amended): under the equal-installment method the per-period
payment computation always returns interest `balance × r` and principal
`A − balance × r`, where `r` is the *initial* monthly rate (never the
currently effective one) and `A` is the annuity payment
`P·r·(1+r)^n / ((1+r)^n − 1)` from the initial rate and the full term, so
rate-timeline changes have no effect on Regular rows' interest or total
payment: replacing the rate timeline by any other list leaves the whole
output table unchanged except for the recorded interest and total of
Prepayment rows and the cumulative-interest column, which are accrued at
the effective rate (the `rateFreeView` projection).  The claim's statement
that every Regular row's recorded principal equals `A − interest` needs
amending: the retroactive prepayment edit and the final-row adjustment
later alter recorded principals, as the counterexample shows. -/
theorem C5_equal_installment (p : Params) (rc : List (Date × ℚ))
    (h : p.repaymentType = "equal_payment") :
    (∀ curRate bal, computeRegular p curRate bal =
        .ok (bal * (p.initialRate / 100 / 12),
          p.loanAmount * ((p.initialRate / 100 / 12)
              * qpow (1 + p.initialRate / 100 / 12) p.totalMonths)
              / (qpow (1 + p.initialRate / 100 / 12) p.totalMonths - 1)
            - bal * (p.initialRate / 100 / 12)))
    ∧ (generate p).map (List.map rateFreeView)
        = (generate { p with rateChanges := rc }).map (List.map rateFreeView) :=
  ⟨fun c bal => computeRegular_eqpay p c bal h, generate_rate_indep p rc h⟩

/-- Witness for C5 at a concrete input: the equal-installment loan `exC`,
whose rate timeline is replaced by the change list of `exD`. -/
theorem C5_equal_installment_witness :
    exC.repaymentType = "equal_payment"
    ∧ ((∀ curRate bal, computeRegular exC curRate bal =
          .ok (bal * (exC.initialRate / 100 / 12),
            exC.loanAmount * ((exC.initialRate / 100 / 12)
                * qpow (1 + exC.initialRate / 100 / 12) exC.totalMonths)
                / (qpow (1 + exC.initialRate / 100 / 12) exC.totalMonths - 1)
              - bal * (exC.initialRate / 100 / 12)))
        ∧ (generate exC).map (List.map rateFreeView)
            = (generate { exC with rateChanges := [(⟨2022, 10, 1⟩, 24)] }).map
                (List.map rateFreeView)) :=
  ⟨by decide, C5_equal_installment exC [(⟨2022, 10, 1⟩, 24)] (by decide)⟩

theorem computeRegular_eqprin (p : Params) (c bal : ℚ)
    (h : p.repaymentType = "equal_principal") :
    computeRegular p c bal = .ok (bal * (c / 100 / 12), p.monthlyPrincipal) := by
  unfold computeRegular
  rw [h, if_pos rfl]

theorem goodRows_append {mp : ℚ} {l₁ l₂ : List Row}
    (h₁ : GoodRows mp l₁) (h₂ : GoodRows mp l₂) : GoodRows mp (l₁ ++ l₂) := by
  intro r hr
  rcases List.mem_append.mp hr with hm | hm
  · exact h₁ r hm
  · exact h₂ r hm

theorem goodRows_one {mp : ℚ} {r1 : Row}
    (h1 : r1.kind = RowKind.regular → r1.cumP? = none → r1.principal = mp) :
    GoodRows mp [r1] := by
  intro r hr
  rcases List.mem_cons.mp hr with h | h
  · rw [h]
    exact h1
  · exact absurd h (List.not_mem_nil r)

theorem goodRows_two {mp : ℚ} {r1 r2 : Row}
    (h1 : r1.kind = RowKind.regular → r1.cumP? = none → r1.principal = mp)
    (h2 : r2.kind = RowKind.regular → r2.cumP? = none → r2.principal = mp) :
    GoodRows mp [r1, r2] := by
  intro r hr
  rcases List.mem_cons.mp hr with h | hr2
  · rw [h]
    exact h1
  rcases List.mem_cons.mp hr2 with h | hr3
  · rw [h]
    exact h2
  · exact absurd hr3 (List.not_mem_nil r)

theorem processOne_good {p : Params} {curDate : Date} {c : ℚ} {month : ℕ}
    {st st' : LoopSt} {pre : Prepay} (h : p.repaymentType = "equal_principal")
    (hg : GoodRows p.monthlyPrincipal st.schedule)
    (hok : processOne p curDate c month st pre = .ok st') :
    GoodRows p.monthlyPrincipal st'.schedule := by
  have hcr := computeRegular_eqprin p c st.remaining h
  unfold processOne at hok
  rw [hcr] at hok
  dsimp only [Except.bind] at hok
  split_ifs at hok <;> cases hok <;>
    first
      | exact hg
      | exact goodRows_append hg (goodRows_two (fun hk => nomatch hk) (fun _ _ => rfl))
      | exact goodRows_append hg
          (goodRows_two (fun _ hnone => nomatch hnone) (fun hk => nomatch hk))
      | exact goodRows_append hg (goodRows_one (fun _ _ => rfl))

theorem processList_good {p : Params} {curDate : Date} {c : ℚ} {month : ℕ}
    (h : p.repaymentType = "equal_principal") :
    ∀ (l : List Prepay) (st st' : LoopSt), GoodRows p.monthlyPrincipal st.schedule →
      processList p curDate c month st l = .ok st' →
      GoodRows p.monthlyPrincipal st'.schedule := by
  intro l
  induction l with
  | nil =>
    intro st st' hg hok
    rw [processList] at hok
    cases hok
    exact hg
  | cons pre rest ih =>
    intro st st' hg hok
    rw [processList] at hok
    cases hpo : processOne p curDate c month st pre with
    | error e =>
      rw [hpo] at hok
      dsimp only [Except.bind] at hok
      cases hok
    | ok st1 =>
      rw [hpo] at hok
      dsimp only [Except.bind] at hok
      exact ih st1 st' (processOne_good h hg hpo) hok

theorem stepMonth_good {p : Params} {s s' : SimState}
    (h : p.repaymentType = "equal_principal")
    (hg : GoodRows p.monthlyPrincipal s.schedule)
    (hok : stepMonth p s = .ok s') :
    GoodRows p.monthlyPrincipal s'.schedule := by
  unfold stepMonth at hok
  dsimp only at hok
  cases hpl : processList p s.currentDate
      (resolveRate p.rateChanges s.currentRate s.currentDate) s.month
      ⟨s.schedule, s.remaining, false⟩
      (s.prepays.filter fun it => decide ((monthStart s.currentDate).toOrd ≤ it.pdate.toOrd)) with
  | error e =>
    rw [hpl] at hok
    cases hok
  | ok st0 =>
    rw [hpl] at hok
    dsimp only [Except.bind] at hok
    have hg0 : GoodRows p.monthlyPrincipal st0.schedule :=
      processList_good h
        (s.prepays.filter fun it => decide ((monthStart s.currentDate).toOrd ≤ it.pdate.toOrd))
        ⟨s.schedule, s.remaining, false⟩ st0 hg hpl
    split_ifs at hok with h1 h2
    · cases hok
      exact hg
    · have hcr := computeRegular_eqprin p
        (resolveRate p.rateChanges s.currentRate s.currentDate) st0.remaining h
      rw [hcr] at hok
      dsimp only [Except.map] at hok
      split_ifs at hok <;> cases hok <;>
        exact goodRows_append hg0 (goodRows_one (fun _ _ => rfl))
    · dsimp only [Except.map] at hok
      split_ifs at hok <;> cases hok <;> exact hg0

theorem simulate_good {p : Params} (h : p.repaymentType = "equal_principal") :
    ∀ (fuel : ℕ) (s s' : SimState), GoodRows p.monthlyPrincipal s.schedule →
      simulate p fuel s = .ok s' → GoodRows p.monthlyPrincipal s'.schedule := by
  intro fuel
  induction fuel with
  | zero =>
    intro s s' hg hok
    rw [simulate] at hok
    cases hok
    exact hg
  | succ n ih =>
    intro s s' hg hok
    rw [simulate] at hok
    split_ifs at hok with h1
    · cases hsm : stepMonth p s with
      | error e =>
        rw [hsm] at hok
        dsimp only [Except.bind] at hok
        cases hok
      | ok s1 =>
        rw [hsm] at hok
        dsimp only [Except.bind] at hok
        exact ih s1 s' (stepMonth_good h hg hsm) hok
    · cases hok
      exact hg

/-- Claim C6 (amended): under the equal-principal method the per-period
payment computation always returns interest `balance × currentRate/100/12`
and the constant principal share `loanAmount / termMonths`, a quantity
independent of the rate timeline; and in the simulated schedule every
Regular row that the retroactive prepayment edit has not touched (that edit
— the only writer of the cumulative-principal key before finalization — can
reduce an edited row's principal by the prepayment amount, and the final-row
adjustment can change the last row, which the claim must except) carries
exactly that constant share.  The claimed 400000 / 30-year / 3.25% scenario
holds: the output table's first row has interest 1083.33 and principal
1111.11. -/
theorem C6_equal_principal_share (p : Params) (s : SimState)
    (h : p.repaymentType = "equal_principal") (hs : runSim p = .ok s) :
    (∀ curRate bal, computeRegular p curRate bal
        = .ok (bal * (curRate / 100 / 12), p.monthlyPrincipal))
    ∧ GoodRows p.monthlyPrincipal s.schedule
    ∧ (generate ex400k).map (fun rows => rows[0]?.map fun r => (r.interest, r.principal))
        = .ok (some ((108333/100 : ℚ), (111111/100 : ℚ))) := by
  refine ⟨fun c bal => computeRegular_eqprin p c bal h, ?_, by decide⟩
  exact simulate_good h p.totalMonths (initState p) s
    (fun r hr => absurd hr (List.not_mem_nil r)) hs

/-- Witness for C6 at a concrete input: the equal-principal run `exW`. -/
theorem C6_equal_principal_share_witness :
    exW.repaymentType = "equal_principal" ∧ runSim exW = .ok sW
    ∧ ((∀ curRate bal, computeRegular exW curRate bal
          = .ok (bal * (curRate / 100 / 12), exW.monthlyPrincipal))
        ∧ GoodRows exW.monthlyPrincipal sW.schedule
        ∧ (generate ex400k).map (fun rows => rows[0]?.map fun r => (r.interest, r.principal))
            = .ok (some ((108333/100 : ℚ), (111111/100 : ℚ)))) :=
  ⟨by decide, by decide, C6_equal_principal_share exW sW (by decide) (by decide)⟩

theorem stepMonth_prepays {p : Params} {s s' : SimState}
    (h : stepMonth p s = .ok s') :
    s'.prepays = s.prepays.filter
      (fun it => decide ((monthStart s.currentDate).toOrd ≤ it.pdate.toOrd)) := by
  unfold stepMonth at h
  dsimp only at h
  cases hpl : processList p s.currentDate
      (resolveRate p.rateChanges s.currentRate s.currentDate) s.month
      ⟨s.schedule, s.remaining, false⟩
      (s.prepays.filter fun it => decide ((monthStart s.currentDate).toOrd ≤ it.pdate.toOrd)) with
  | error e =>
    rw [hpl] at h
    cases h
  | ok st0 =>
    rw [hpl] at h
    dsimp only [Except.bind] at h
    split_ifs at h with h1 h2
    · cases h
      rfl
    · cases hcr : computeRegular p (resolveRate p.rateChanges s.currentRate s.currentDate)
          st0.remaining with
      | error e =>
        rw [hcr] at h
        cases h
      | ok pay =>
        rw [hcr] at h
        dsimp only [Except.map] at h
        split_ifs at h <;> cases h <;> rfl
    · dsimp only [Except.map] at h
      split_ifs at h <;> cases h <;> rfl

theorem processOne_flag_true {p : Params} {curDate : Date} {c : ℚ} {month : ℕ}
    {st : LoopSt} (pre : Prepay) (h : st.processedFlag = true) :
    processOne p curDate c month st pre = .ok st := by
  unfold processOne
  by_cases hm : curDate.year = pre.pdate.year ∧ curDate.month = pre.pdate.month
  · rw [if_pos hm, if_pos h]
  · rw [if_neg hm, if_pos h]

theorem processList_flag_true {p : Params} {curDate : Date} {c : ℚ} {month : ℕ}
    {st : LoopSt} (h : st.processedFlag = true) :
    ∀ l : List Prepay, processList p curDate c month st l = .ok st := by
  intro l
  induction l with
  | nil => rfl
  | cons pre rest ih =>
    rw [processList, processOne_flag_true pre h]
    dsimp only [Except.bind]
    exact ih

theorem processOne_applies {p : Params} {curDate : Date} {c : ℚ} {month : ℕ}
    {sched : List Row} {rem : ℚ} {pre : Prepay} {st1 : LoopSt}
    (hm : curDate.year = pre.pdate.year ∧ curDate.month = pre.pdate.month)
    (ha : 0 < pre.amount ∧ 0 < rem)
    (h1 : processOne p curDate c month ⟨sched, rem, false⟩ pre = .ok st1) :
    st1.processedFlag = true
    ∧ ((st1.schedule.drop sched.length).filter
        (fun r => decide (r.kind = RowKind.prepay))).length = 1 := by
  unfold processOne at h1
  dsimp only at h1
  rw [if_pos hm, if_neg (by decide : ¬ ((false : Bool) = true)), if_pos ha] at h1
  cases hcr : computeRegular p c rem with
  | error e =>
    rw [hcr] at h1
    dsimp only [Except.bind] at h1
    cases h1
  | ok pay =>
    rw [hcr] at h1
    dsimp only [Except.bind] at h1
    split_ifs at h1 <;> cases h1 <;>
      refine ⟨rfl, ?_⟩ <;> rw [List.drop_left] <;> rfl

/-- Claim C8: within one simulated month, once the first date-sorted pending
prepayment whose calendar month matches the date cursor has been applied
(appending exactly one Prepayment-kind row), the `processed_months` flag
makes every later list element — in particular every further same-month
prepayment — a no-op, so the whole prepayment loop equals its first
matching step; and the next iteration's windowing filter re-admits any
pending prepayment dated on or after the start of the current year-month,
leaving the remaining same-month prepayments pending for a later pass. -/
theorem C8_one_prepayment_per_month (p : Params) (curDate : Date) (c : ℚ) (month : ℕ)
    (sched : List Row) (rem : ℚ) (pre1 : Prepay) (rest : List Prepay) (st1 : LoopSt)
    (hm : curDate.year = pre1.pdate.year ∧ curDate.month = pre1.pdate.month)
    (ha : 0 < pre1.amount ∧ 0 < rem)
    (h1 : processOne p curDate c month ⟨sched, rem, false⟩ pre1 = .ok st1) :
    processList p curDate c month ⟨sched, rem, false⟩ (pre1 :: rest) = .ok st1
    ∧ ((st1.schedule.drop sched.length).filter
        (fun r => decide (r.kind = RowKind.prepay))).length = 1
    ∧ (∀ (s s' : SimState), stepMonth p s = .ok s' → ∀ q ∈ s.prepays,
        (monthStart s.currentDate).toOrd ≤ q.pdate.toOrd → q ∈ s'.prepays) := by
  obtain ⟨hflag, hone⟩ := processOne_applies hm ha h1
  refine ⟨?_, hone, ?_⟩
  · rw [processList, h1]
    dsimp only [Except.bind]
    exact processList_flag_true hflag rest
  · intro s s' hstep q hq hdle
    rw [stepMonth_prepays hstep]
    exact List.mem_filter.mpr ⟨hq, decide_eq_true hdle⟩

/-- Witness for C8 at a concrete month: period 2 of the loan `exA` with two
pending October prepayments; the loop applies only the first one and its
result contains exactly one Prepayment-kind row. -/
theorem C8_one_prepayment_per_month_witness :
    ((⟨2022, 10, 12⟩ : Date).year = (⟨⟨2022, 10, 12⟩, 100⟩ : Prepay).pdate.year
      ∧ (⟨2022, 10, 12⟩ : Date).month = (⟨⟨2022, 10, 12⟩, 100⟩ : Prepay).pdate.month)
    ∧ (0 < (⟨⟨2022, 10, 12⟩, 100⟩ : Prepay).amount ∧ (0 : ℚ) < 1200)
    ∧ processOne exA ⟨2022, 10, 12⟩ (13/4) 2 ⟨[], 1200, false⟩ ⟨⟨2022, 10, 12⟩, 100⟩
        = .ok st8
    ∧ (processList exA ⟨2022, 10, 12⟩ (13/4) 2 ⟨[], 1200, false⟩
          [⟨⟨2022, 10, 12⟩, 100⟩, ⟨⟨2022, 10, 20⟩, 50⟩] = .ok st8
        ∧ ((st8.schedule.drop ([] : List Row).length).filter
            (fun r => decide (r.kind = RowKind.prepay))).length = 1
        ∧ (∀ (s s' : SimState), stepMonth exA s = .ok s' → ∀ q ∈ s.prepays,
            (monthStart s.currentDate).toOrd ≤ q.pdate.toOrd → q ∈ s'.prepays)) :=
  ⟨by decide, by decide, by decide,
    C8_one_prepayment_per_month exA ⟨2022, 10, 12⟩ (13/4) 2 [] 1200
      ⟨⟨2022, 10, 12⟩, 100⟩ [⟨⟨2022, 10, 20⟩, 50⟩] st8 (by decide) (by decide) (by decide)⟩

end Loan
